import Mathlib

/-!
# Playback registry of `audio.go` (package `spx`)

A shallow embedding of `soundMgr` and its operations.

* A `*soundPlayer` is an address (`Nat`); the objects live in `soundMgr.heap`,
  so that a player that was deleted from the map can still be inspected.
  The embedded `*audio.Player` is created together with the `soundPlayer`
  that embeds it and is identified with that address.
* `players map[*soundPlayer]chan bool` is an association list; the order of
  the list is the order in which `range` visits the map, and `visit` reorders
  it between two calls, since Go does not fix that order.  A `chan bool` is
  a channel identifier, `none` is the `nil` channel.
* Every call into the device, the asset file system, the decoder and every
  send on a channel is appended to `soundMgr.trace`.  Pure queries
  (`IsPlaying`, `Volume`) are not recorded; the answer of `IsPlaying` is
  supplied by the caller of `update` for every address.
* The blocking receive `waitForChan(done)` that ends `play` when `wait` is set
  is reported as the outcome `waiting`: `play` is modelled up to that receive.
* A send `done <- true` is recorded and never blocks: `play` makes every
  channel with capacity one and stores it in one entry, and the entry is
  deleted by the call that sends (see `Owned`).
* `&soundPlayer{}` and `make(chan bool, 1)` return an address and a channel
  that the manager does not refer to yet (`freshPtr`, `freshChan`).
-/

namespace Spx

/-- The Go enumeration `playerState`. -/
inductive playerState
  | playerPaused
  | playerPlay
  | playerLoopPlay
  | playerClosed
deriving DecidableEq, Repr

/-- The Go enumeration `ActionState`. -/
inductive ActionState
  | ActionPlay
  | ActionLoopPlay
  | ActionLoopContinuePlay
  | ActionPause
  | ActionResume
  | ActionStop
deriving DecidableEq, Repr

open playerState ActionState

/-- The Go struct `PlayOptions`. -/
structure PlayOptions where
  Wait : Bool
  Action : ActionState
deriving DecidableEq, Repr

/-- Modelled from the spec: the type `Sound` is declared outside `audio.go`;
the code only reads its field `Path`, the logical path that identifies the
asset ("identity is by-path equality"). -/
structure Sound where
  Path : String
deriving DecidableEq, Repr

/-- The Go struct `soundPlayer` (the embedded `*audio.Player` is the address
of the object itself). -/
structure soundPlayer where
  media : Sound
  state : playerState
deriving DecidableEq, Repr

/-- Effects on the collaborators of `soundMgr`, in program order. -/
inductive Event
  | fsOpen (path : String)
  | sourceClose (path : String)
  | decode (path : String)
  | newPlayer (sp : Nat)
  | play (sp : Nat)
  | pause (sp : Nat)
  | rewind (sp : Nat)
  | close (sp : Nat)
  | send (done : Nat)
deriving DecidableEq, Repr

/-- The Go struct `soundMgr`: the objects, the map `players`, the effects
performed so far. -/
structure soundMgr where
  heap : Nat → soundPlayer
  players : List (Nat × Option Nat)
  trace : List Event

/-- The error values of the collaborators. -/
abbrev Error := String

/-- The answers of the collaborators of `play` for an asset path:
`none` is success, `some e` is the error `e`. -/
structure Env where
  fsOpen : String → Option Error
  decode : String → Option Error
  newPlayer : String → Option Error

/-- Modelled from the spec: `waitForChan` is declared outside `audio.go`; it
blocks the caller until the completion signal is delivered.  `waiting done` is
the outcome of a call that has reached `waitForChan(done)`; the other outcomes
are a return with the value of `err` and a panic. -/
inductive Outcome
  | returned (err : Option Error)
  | panicked (err : Error)
  | waiting (done : Nat)
deriving DecidableEq, Repr

/-- The zero value `soundPlayer{}` with its `media` unset. -/
def zeroPlayer : soundPlayer := { media := { Path := "" }, state := playerPaused }

/-- Appends effects to the trace. -/
def soundMgr.emit (s : soundMgr) (evs : List Event) : soundMgr :=
  { s with trace := s.trace ++ evs }

/-- The assignment `sp.state = st`. -/
def soundMgr.setState (s : soundMgr) (sp : Nat) (st : playerState) : soundMgr :=
  { s with heap := Function.update s.heap sp { s.heap sp with state := st } }

/-- The assignment `sp.media = media`. -/
def soundMgr.setMedia (s : soundMgr) (sp : Nat) (media : Sound) : soundMgr :=
  { s with heap := Function.update s.heap sp { s.heap sp with media := media } }

/-- The Go statement `delete(p.players, sp)`. -/
def soundMgr.delete (s : soundMgr) (sp : Nat) : soundMgr :=
  { s with players := s.players.filter (fun e => decide (e.1 ≠ sp)) }

/-- The Go statement `done <- true` guarded by `done != nil`. -/
def soundMgr.signal (s : soundMgr) (done : Option Nat) : soundMgr :=
  match done with
  | some c => s.emit [Event.send c]
  | none => s

/-- The map assignment `p.players[sp] = done`. -/
def insertPlayer (l : List (Nat × Option Nat)) (sp : Nat) (done : Option Nat) :
    List (Nat × Option Nat) :=
  if l.any (fun e => decide (e.1 = sp)) then
    l.map (fun e => if e.1 = sp then (sp, done) else e)
  else l ++ [(sp, done)]

/-- The method `addPlayer`. -/
def addPlayer (s : soundMgr) (sp : Nat) (done : Option Nat) : soundMgr :=
  { s with players := insertPlayer s.players sp done }

/-- The method `init`: an empty map. -/
def init : soundMgr :=
  { heap := fun _ => zeroPlayer, players := [], trace := [] }

/-- One iteration of the first loop of `update`. -/
def updateStep (isPlaying : Nat → Bool) (acc : soundMgr × List Nat)
    (e : Nat × Option Nat) : soundMgr × List Nat :=
  if !isPlaying e.1 && decide ((acc.1.heap e.1).state ≠ playerPaused) then
    if (acc.1.heap e.1).state = playerLoopPlay then
      (acc.1.emit [Event.rewind e.1, Event.play e.1], acc.2)
    else
      (((acc.1.emit [Event.close e.1]).signal e.2), acc.2 ++ [e.1])
  else acc

/-- The method `update`; `isPlaying sp` is the answer of `sp.IsPlaying()`. -/
def update (isPlaying : Nat → Bool) (s : soundMgr) : soundMgr :=
  let r := s.players.foldl (updateStep isPlaying) (s, [])
  r.2.foldl soundMgr.delete r.1

/-- One iteration of the first loop of `stopAll`. -/
def stopAllStep (acc : soundMgr × List Nat) (e : Nat × Option Nat) :
    soundMgr × List Nat :=
  ((((acc.1.emit [Event.close e.1]).signal e.2).setState e.1 playerClosed), acc.2 ++ [e.1])

/-- The method `stopAll`. -/
def stopAll (s : soundMgr) : soundMgr :=
  let r := s.players.foldl stopAllStep (s, [])
  r.2.foldl soundMgr.delete r.1

/-- One iteration of the first loop of `stop`. -/
def stopStep (media : Sound) (acc : soundMgr × List Nat) (e : Nat × Option Nat) :
    soundMgr × List Nat :=
  if (acc.1.heap e.1).media.Path = media.Path then
    ((((acc.1.emit [Event.close e.1]).signal e.2).setState e.1 playerClosed), acc.2 ++ [e.1])
  else acc

/-- The method `stop`. -/
def stop (s : soundMgr) (media : Sound) : soundMgr :=
  let r := s.players.foldl (stopStep media) (s, [])
  r.2.foldl soundMgr.delete r.1

/-- One iteration of the loop of `pause`. -/
def pauseStep (media : Sound) (s : soundMgr) (e : Nat × Option Nat) : soundMgr :=
  if (s.heap e.1).media.Path = media.Path then
    (s.emit [Event.pause e.1]).setState e.1 playerPaused
  else s

/-- The method `pause`. -/
def pause (s : soundMgr) (media : Sound) : soundMgr :=
  s.players.foldl (pauseStep media) s

/-- One iteration of the loop of `resume`. -/
def resumeStep (media : Sound) (s : soundMgr) (e : Nat × Option Nat) : soundMgr :=
  if (s.heap e.1).media.Path = media.Path then
    (s.emit [Event.play e.1]).setState e.1 playerPlay
  else s

/-- The method `resume`. -/
def resume (s : soundMgr) (media : Sound) : soundMgr :=
  s.players.foldl (resumeStep media) s

/-- The channels that received a value, one item for each send. -/
def deliveries (evs : List Event) : List Nat :=
  evs.filterMap (fun ev => match ev with
    | Event.send c => some c
    | _ => none)

/-- The address returned by `&soundPlayer{}`: an address that is not a key of
the map. -/
def freshPtr (s : soundMgr) : Nat :=
  (s.players.map Prod.fst).foldr max 0 + 1

/-- The channel returned by `make(chan bool, 1)`: a channel that no entry of
the map holds and that never received a value. -/
def freshChan (s : soundMgr) : Nat :=
  (s.players.filterMap Prod.snd ++ deliveries s.trace).foldr max 0 + 1

/-- The `switch action` at the end of `play`. -/
def playState (s : soundMgr) (sp : Nat) (action : ActionState) : soundMgr :=
  match action with
  | ActionPlay => s.setState sp playerPlay
  | ActionLoopPlay => s.setState sp playerLoopPlay
  | _ => s

/-- The method `play`. -/
def play (env : Env) (s : soundMgr) (media : Sound) (wait : Bool) (action : ActionState) :
    Outcome × soundMgr :=
  let s1 := s.emit [Event.fsOpen media.Path]
  match env.fsOpen media.Path with
  | some err => (Outcome.panicked err, s1)
  | none =>
    let s2 := s1.emit [Event.decode media.Path]
    match env.decode media.Path with
    | some err => (Outcome.returned (some err), s2.emit [Event.sourceClose media.Path])
    | none =>
      let sp := freshPtr s2
      let s3 : soundMgr := { s2 with heap := Function.update s2.heap sp zeroPlayer }
      let s4 := (s3.setMedia sp media).emit [Event.newPlayer sp]
      match env.newPlayer media.Path with
      | some err => (Outcome.returned (some err), s4.emit [Event.sourceClose media.Path])
      | none =>
        let done : Option Nat := if wait then some (freshChan s4) else none
        let s6 := playState ((addPlayer s4 sp done).emit [Event.play sp]) sp action
        match done with
        | some c => (Outcome.waiting c, s6)
        | none => (Outcome.returned none, s6)

/-- One iteration of the loop of `playContinue`. -/
def playContinueStep (media : Sound) (acc : soundMgr × Bool) (e : Nat × Option Nat) :
    soundMgr × Bool :=
  if (acc.1.heap e.1).media.Path = media.Path then
    (acc.1.setState e.1 playerLoopPlay, true)
  else acc

/-- The method `playContinue`. -/
def playContinue (env : Env) (s : soundMgr) (media : Sound) (wait : Bool) :
    Outcome × soundMgr :=
  let r := s.players.foldl (playContinueStep media) (s, false)
  if r.2 = false then play env r.1 media wait ActionLoopPlay
  else (Outcome.returned none, r.1)

/-- The method `playAction`. -/
def playAction (env : Env) (s : soundMgr) (media : Sound) (actionPlay : PlayOptions) :
    Outcome × soundMgr :=
  match actionPlay.Action with
  | ActionPlay => play env s media actionPlay.Wait ActionPlay
  | ActionLoopPlay => play env s media actionPlay.Wait ActionLoopPlay
  | ActionLoopContinuePlay => playContinue env s media actionPlay.Wait
  | ActionStop => (Outcome.returned none, stop s media)
  | ActionResume => (Outcome.returned none, resume s media)
  | ActionPause => (Outcome.returned none, pause s media)

/-- The order in which the next `range` visits the map, which Go leaves
unspecified: the entries are visited by increasing `rank` of their address. -/
def visit (rank : Nat → Nat) (s : soundMgr) : soundMgr :=
  { s with players := s.players.insertionSort (fun a b => rank a.1 ≤ rank b.1) }

/-- One call of `update`: the order in which its `range` visits the map and
the answers of `IsPlaying`. -/
structure Tick where
  rank : Nat → Nat
  isPlaying : Nat → Bool

/-- A finite sequence of calls of `update`. -/
def updates (os : List Tick) (s : soundMgr) : soundMgr :=
  os.foldl (fun t o => update o.isPlaying (visit o.rank t)) s

/-- The objects of the sample registry `demo`. -/
def demoHeap : Nat → soundPlayer := fun a =>
  match a with
  | 0 => { media := { Path := "bgm.mp3" }, state := playerLoopPlay }
  | 1 => { media := { Path := "jump.wav" }, state := playerPlay }
  | 2 => { media := { Path := "coin.wav" }, state := playerPaused }
  | 3 => { media := { Path := "jump.wav" }, state := playerPlay }
  | _ => zeroPlayer

/-- A sample registry: a looping music, two instances of one effect (the
first with a waiter) and a paused effect with a waiter. -/
def demo : soundMgr :=
  { heap := demoHeap
    players := [(0, none), (1, some 0), (2, some 1), (3, none)]
    trace := [] }

/-- Collaborators that never fail. -/
def okEnv : Env :=
  { fsOpen := fun _ => none, decode := fun _ => none, newPlayer := fun _ => none }

/-- An asset file system that does not have the asset. -/
def brokenFs : Env := { okEnv with fsOpen := fun _ => some "ENOENT" }

/-- A decoder that rejects the asset. -/
def brokenDecoder : Env := { okEnv with decode := fun _ => some "bad format" }

/-- A device that cannot allocate a player. -/
def brokenDevice : Env := { okEnv with newPlayer := fun _ => some "no channel" }

/-- A device on which no player is producing audio any more. -/
def silent : Nat → Bool := fun _ => false

/-- A call of `update` on a silent device that visits the map backwards. -/
def silentTick : Tick := { rank := fun a => 10 - a, isPlaying := silent }

/-! ## Vocabulary of the statements -/

/-- The effects appended to the trace between `s` and a later state `t`. -/
def newEvents (s t : soundMgr) : List Event :=
  t.trace.drop s.trace.length

/-- The effects of `done <- true` guarded by `done != nil`. -/
def signalEvents (done : Option Nat) : List Event :=
  match done with
  | some c => [Event.send c]
  | none => []

/-- The branch of `update` that closes the player at `sp`. -/
def reaped (isPlaying : Nat → Bool) (h : Nat → soundPlayer) (sp : Nat) : Bool :=
  !isPlaying sp && decide ((h sp).state ≠ playerPaused) &&
    decide ((h sp).state ≠ playerLoopPlay)

/-- The effects of one iteration of the first loop of `update`. -/
def updateEvents (isPlaying : Nat → Bool) (h : Nat → soundPlayer)
    (e : Nat × Option Nat) : List Event :=
  if !isPlaying e.1 && decide ((h e.1).state ≠ playerPaused) then
    if (h e.1).state = playerLoopPlay then [Event.rewind e.1, Event.play e.1]
    else Event.close e.1 :: signalEvents e.2
  else []

/-- The test `sp.media.Path == media.Path` on the object at `sp`. -/
def boundTo (h : Nat → soundPlayer) (path : String) (sp : Nat) : Bool :=
  decide ((h sp).media.Path = path)

/-- Writes `st` into the state of every object of `keys` selected by `K`. -/
def markHeap (K : Nat → Bool) (st : playerState) (h : Nat → soundPlayer)
    (keys : List Nat) : Nat → soundPlayer :=
  fun a => if a ∈ keys ∧ K a = true then { h a with state := st } else h a

/-- The effects of one iteration of the first loop of `stop` and `stopAll`. -/
def stopEvents (K : Nat → Bool) (e : Nat × Option Nat) : List Event :=
  if K e.1 = true then Event.close e.1 :: signalEvents e.2 else []

/-- The effects of one iteration of a loop that calls one method `ev` of the
device on every selected player. -/
def callEvents (K : Nat → Bool) (ev : Nat → Event) (e : Nat × Option Nat) : List Event :=
  if K e.1 = true then [ev e.1] else []

/-- The state that `play` writes into the new player. -/
def startState (action : ActionState) : playerState :=
  match action with
  | ActionPlay => playerPlay
  | ActionLoopPlay => playerLoopPlay
  | _ => playerPaused

/-- One call on the manager, with the answers of the collaborators it uses;
`range` fixes the order in which the following calls visit the map. -/
inductive Op
  | range (rank : Nat → Nat)
  | update (isPlaying : Nat → Bool)
  | stop (media : Sound)
  | stopAll
  | pause (media : Sound)
  | resume (media : Sound)
  | playContinue (env : Env) (media : Sound) (wait : Bool)
  | play (env : Env) (media : Sound) (wait : Bool) (action : ActionState)

/-- The state after one call. -/
def step (op : Op) (s : soundMgr) : soundMgr :=
  match op with
  | Op.range rank => visit rank s
  | Op.update isPlaying => update isPlaying s
  | Op.stop media => stop s media
  | Op.stopAll => stopAll s
  | Op.pause media => pause s media
  | Op.resume media => resume s media
  | Op.playContinue env media wait => (playContinue env s media wait).2
  | Op.play env media wait action => (play env s media wait action).2

/-- A sequential run of calls. -/
def run (ops : List Op) (s : soundMgr) : soundMgr :=
  ops.foldl (fun t op => step op t) s

/-- No registered player has state `playerClosed`. -/
def NoClosed (s : soundMgr) : Prop :=
  ∀ e ∈ s.players, (s.heap e.1).state ≠ playerClosed

instance (s : soundMgr) : Decidable (NoClosed s) := by
  unfold NoClosed
  infer_instance

/-- The channels held by the entries of the map. -/
def signals (s : soundMgr) : List Nat :=
  s.players.filterMap Prod.snd

/-- The entries whose channel a call may send to: for `update` the entries
that are neither paused nor looping and whose handle is not playing, for
`stop` the entries bound to the path, for `stopAll` all entries, and none for
the other calls. -/
def mayDeliver (op : Op) (s : soundMgr) (e : Nat × Option Nat) : Prop :=
  match op with
  | Op.update isPlaying =>
    isPlaying e.1 = false ∧ (s.heap e.1).state ≠ playerPaused ∧
      (s.heap e.1).state ≠ playerLoopPlay
  | Op.stop media => (s.heap e.1).media.Path = media.Path
  | Op.stopAll => True
  | _ => False

/-- The bookkeeping of the channels since position `n` of the trace: every
channel is held by at most one entry, received at most one value, and no
channel that is still held received one. -/
def Owned (n : Nat) (s : soundMgr) : Prop :=
  n ≤ s.trace.length ∧ (signals s).Nodup ∧ (deliveries (s.trace.drop n)).Nodup ∧
    ∀ c ∈ signals s, c ∉ deliveries (s.trace.drop n)

/-! ## Field lemmas -/

@[simp] theorem emit_heap (s : soundMgr) (evs : List Event) : (s.emit evs).heap = s.heap := rfl
@[simp] theorem emit_players (s : soundMgr) (evs : List Event) :
    (s.emit evs).players = s.players := rfl
@[simp] theorem emit_trace (s : soundMgr) (evs : List Event) :
    (s.emit evs).trace = s.trace ++ evs := rfl

@[simp] theorem signal_heap (s : soundMgr) (d : Option Nat) : (s.signal d).heap = s.heap := by
  cases d <;> rfl
@[simp] theorem signal_players (s : soundMgr) (d : Option Nat) :
    (s.signal d).players = s.players := by
  cases d <;> rfl
@[simp] theorem signal_trace (s : soundMgr) (d : Option Nat) :
    (s.signal d).trace = s.trace ++ signalEvents d := by
  cases d <;> simp [soundMgr.signal, signalEvents]

@[simp] theorem setState_heap (s : soundMgr) (sp : Nat) (st : playerState) :
    (s.setState sp st).heap = Function.update s.heap sp { s.heap sp with state := st } := rfl
@[simp] theorem setState_players (s : soundMgr) (sp : Nat) (st : playerState) :
    (s.setState sp st).players = s.players := rfl
@[simp] theorem setState_trace (s : soundMgr) (sp : Nat) (st : playerState) :
    (s.setState sp st).trace = s.trace := rfl

theorem soundMgr.ext_fields {s t : soundMgr} (h1 : s.heap = t.heap)
    (h2 : s.players = t.players) (h3 : s.trace = t.trace) : s = t := by
  cases s; cases t; simp_all

theorem newEvents_append (s t : soundMgr) (evs : List Event) (h : t.trace = s.trace ++ evs) :
    newEvents s t = evs := by
  simp [newEvents, h]

theorem deliveries_append (a b : List Event) :
    deliveries (a ++ b) = deliveries a ++ deliveries b := by
  simp [deliveries, List.filterMap_append]

theorem deliveries_signalEvents (d : Option Nat) :
    deliveries (signalEvents d) = d.toList := by
  cases d <;> simp [deliveries, signalEvents]

/-! ## The second loop: `delete` of every collected key -/

theorem deleteAll_players (cl : List Nat) (s : soundMgr) :
    (cl.foldl soundMgr.delete s).players =
      s.players.filter (fun e => decide (e.1 ∉ cl)) := by
  induction cl generalizing s with
  | nil => simp
  | cons k ks ih =>
    simp only [List.foldl_cons, ih, soundMgr.delete, List.filter_filter]
    apply List.filter_congr
    intro e _
    simp [not_or, Bool.and_comm]

theorem deleteAll_rest (cl : List Nat) (s : soundMgr) :
    (cl.foldl soundMgr.delete s).heap = s.heap ∧
    (cl.foldl soundMgr.delete s).trace = s.trace := by
  induction cl generalizing s with
  | nil => simp
  | cons k ks ih =>
    simp only [List.foldl_cons]
    have := ih (s.delete k)
    simpa [soundMgr.delete] using this

/-! ## The first loop of `update` -/

theorem updateLoop_spec (o : Nat → Bool) (l : List (Nat × Option Nat)) (s : soundMgr)
    (cl : List Nat) :
    (l.foldl (updateStep o) (s, cl)).1.heap = s.heap ∧
    (l.foldl (updateStep o) (s, cl)).1.players = s.players ∧
    (l.foldl (updateStep o) (s, cl)).1.trace = s.trace ++ l.flatMap (updateEvents o s.heap) ∧
    (l.foldl (updateStep o) (s, cl)).2 = cl ++ (l.map Prod.fst).filter (reaped o s.heap) := by
  induction l generalizing s cl with
  | nil => simp
  | cons e es ih =>
    simp only [List.foldl_cons, List.flatMap_cons, List.map_cons]
    by_cases h1 : (!o e.1 && decide ((s.heap e.1).state ≠ playerPaused)) = true
    · by_cases h2 : (s.heap e.1).state = playerLoopPlay
      · have hr : reaped o s.heap e.1 = false := by simp [reaped, h2]
        have hs : updateStep o (s, cl) e = (s.emit [Event.rewind e.1, Event.play e.1], cl) := by
          simp only [updateStep]
          rw [if_pos h1, if_pos h2]
        rw [hs]
        obtain ⟨a1, a2, a3, a6⟩ := ih (s.emit [Event.rewind e.1, Event.play e.1]) cl
        refine ⟨a1, a2, ?_, ?_⟩
        · have hu : updateEvents o s.heap e = [Event.rewind e.1, Event.play e.1] := by
            simp only [updateEvents]
            rw [if_pos h1, if_pos h2]
          rw [a3, hu]; simp
        · rw [a6]; simp [List.filter_cons, hr]
      · have hr : reaped o s.heap e.1 = true := by
          simp only [Bool.and_eq_true] at h1
          simp [reaped, h1.1, h1.2, h2]
        have hs : updateStep o (s, cl) e =
            (((s.emit [Event.close e.1]).signal e.2), cl ++ [e.1]) := by
          simp only [updateStep]
          rw [if_pos h1, if_neg h2]
        rw [hs]
        obtain ⟨a1, a2, a3, a6⟩ := ih ((s.emit [Event.close e.1]).signal e.2) (cl ++ [e.1])
        refine ⟨by simpa using a1, by simpa using a2, ?_, ?_⟩
        · have hu : updateEvents o s.heap e = Event.close e.1 :: signalEvents e.2 := by
            simp only [updateEvents]
            rw [if_pos h1, if_neg h2]
          rw [a3, hu]; simp
        · rw [a6]; simp [List.filter_cons, hr]
    · have hr : reaped o s.heap e.1 = false := by
        simp only [reaped]
        simp only [Bool.not_eq_true] at h1
        rw [h1]; rfl
      have hs : updateStep o (s, cl) e = (s, cl) := by
        simp only [updateStep]
        rw [if_neg h1]
      rw [hs]
      obtain ⟨a1, a2, a3, a6⟩ := ih s cl
      refine ⟨a1, a2, ?_, ?_⟩
      · have hu : updateEvents o s.heap e = [] := by
          simp only [updateEvents]
          rw [if_neg h1]
        rw [a3, hu]; simp
      · rw [a6]; simp [List.filter_cons, hr]

theorem update_heap (o : Nat → Bool) (s : soundMgr) : (update o s).heap = s.heap := by
  unfold update
  simp only []
  rw [(deleteAll_rest _ _).1, (updateLoop_spec o s.players s []).1]

theorem update_trace (o : Nat → Bool) (s : soundMgr) :
    (update o s).trace = s.trace ++ s.players.flatMap (updateEvents o s.heap) := by
  unfold update
  simp only []
  rw [(deleteAll_rest _ _).2, (updateLoop_spec o s.players s []).2.2.1]

theorem update_players (o : Nat → Bool) (s : soundMgr) :
    (update o s).players = s.players.filter (fun e => !reaped o s.heap e.1) := by
  unfold update
  simp only []
  rw [deleteAll_players, (updateLoop_spec o s.players s []).2.1,
    (updateLoop_spec o s.players s []).2.2.2]
  apply List.filter_congr
  intro e he
  have hk : e.1 ∈ s.players.map Prod.fst := List.mem_map_of_mem _ he
  cases hr : reaped o s.heap e.1 <;> simp [List.mem_filter, hr, hk]

/-! ## Loops that mark the selected players -/

theorem markHeap_nil (K : Nat → Bool) (st : playerState) (h : Nat → soundPlayer) :
    markHeap K st h [] = h := by
  funext a
  simp [markHeap]

theorem markHeap_cons_true (K : Nat → Bool) (st : playerState) (h : Nat → soundPlayer)
    (k : Nat) (ks : List Nat) (hk : K k = true) :
    markHeap K st (Function.update h k { h k with state := st }) ks =
      markHeap K st h (k :: ks) := by
  funext a
  by_cases ha : a = k
  · subst ha
    simp [markHeap, hk]
  · simp [markHeap, ha, Function.update_noteq ha]

theorem markHeap_cons_false (K : Nat → Bool) (st : playerState) (h : Nat → soundPlayer)
    (k : Nat) (ks : List Nat) (hk : K k = false) :
    markHeap K st h (k :: ks) = markHeap K st h ks := by
  funext a
  by_cases ha : a = k
  · subst ha
    simp [markHeap, hk]
  · simp [markHeap, ha]

theorem markHeap_media (K : Nat → Bool) (st : playerState) (h : Nat → soundPlayer)
    (ks : List Nat) (a : Nat) : (markHeap K st h ks a).media = (h a).media := by
  unfold markHeap
  split <;> rfl

theorem markHeap_state (K : Nat → Bool) (st : playerState) (h : Nat → soundPlayer)
    (ks : List Nat) (a : Nat) :
    (markHeap K st h ks a).state = if a ∈ ks ∧ K a = true then st else (h a).state := by
  unfold markHeap
  split <;> rfl

theorem boundTo_update_state (h : Nat → soundPlayer) (path : String) (k : Nat)
    (st : playerState) (a : Nat) :
    boundTo (Function.update h k { h k with state := st }) path a = boundTo h path a := by
  by_cases ha : a = k
  · subst ha
    simp [boundTo]
  · simp [boundTo, Function.update_noteq ha]

theorem stopLoop_spec (media : Sound) (K : Nat → Bool) (l : List (Nat × Option Nat))
    (s : soundMgr) (cl : List Nat) (hK : ∀ a, boundTo s.heap media.Path a = K a) :
    (l.foldl (stopStep media) (s, cl)).1.heap =
      markHeap K playerClosed s.heap (l.map Prod.fst) ∧
    (l.foldl (stopStep media) (s, cl)).1.players = s.players ∧
    (l.foldl (stopStep media) (s, cl)).1.trace = s.trace ++ l.flatMap (stopEvents K) ∧
    (l.foldl (stopStep media) (s, cl)).2 = cl ++ (l.map Prod.fst).filter K := by
  induction l generalizing s cl with
  | nil => simp [markHeap_nil]
  | cons e es ih =>
    simp only [List.foldl_cons, List.flatMap_cons, List.map_cons]
    by_cases hb : (s.heap e.1).media.Path = media.Path
    · have hk : K e.1 = true := by rw [← hK]; simp [boundTo, hb]
      have hs : stopStep media (s, cl) e =
          ((((s.emit [Event.close e.1]).signal e.2).setState e.1 playerClosed),
            cl ++ [e.1]) := by
        simp only [stopStep]
        rw [if_pos hb]
      rw [hs]
      obtain ⟨a1, a2, a3, a6⟩ :=
        ih (((s.emit [Event.close e.1]).signal e.2).setState e.1 playerClosed) (cl ++ [e.1])
          (by
            intro a
            rw [← hK]
            simpa using boundTo_update_state s.heap media.Path e.1 playerClosed a)
      refine ⟨?_, by simpa using a2, ?_, ?_⟩
      · rw [a1]
        simpa using markHeap_cons_true K playerClosed s.heap e.1 (es.map Prod.fst) hk
      · rw [a3]; simp [stopEvents, hk]
      · rw [a6]; simp [List.filter_cons, hk]
    · have hk : K e.1 = false := by rw [← hK]; simp [boundTo, hb]
      have hs : stopStep media (s, cl) e = (s, cl) := by
        simp only [stopStep]
        rw [if_neg hb]
      rw [hs]
      obtain ⟨a1, a2, a3, a6⟩ := ih s cl hK
      refine ⟨?_, a2, ?_, ?_⟩
      · rw [a1, markHeap_cons_false K playerClosed s.heap e.1 _ hk]
      · rw [a3]; simp [stopEvents, hk]
      · rw [a6]; simp [List.filter_cons, hk]

theorem stopAllLoop_spec (l : List (Nat × Option Nat)) (s : soundMgr) (cl : List Nat) :
    (l.foldl stopAllStep (s, cl)).1.heap =
      markHeap (fun _ => true) playerClosed s.heap (l.map Prod.fst) ∧
    (l.foldl stopAllStep (s, cl)).1.players = s.players ∧
    (l.foldl stopAllStep (s, cl)).1.trace =
      s.trace ++ l.flatMap (stopEvents (fun _ => true)) ∧
    (l.foldl stopAllStep (s, cl)).2 = cl ++ l.map Prod.fst := by
  induction l generalizing s cl with
  | nil => simp [markHeap_nil]
  | cons e es ih =>
    simp only [List.foldl_cons, List.flatMap_cons, List.map_cons]
    have hs : stopAllStep (s, cl) e =
        ((((s.emit [Event.close e.1]).signal e.2).setState e.1 playerClosed),
          cl ++ [e.1]) := rfl
    rw [hs]
    obtain ⟨a1, a2, a3, a6⟩ :=
      ih (((s.emit [Event.close e.1]).signal e.2).setState e.1 playerClosed) (cl ++ [e.1])
    refine ⟨?_, by simpa using a2, ?_, ?_⟩
    · rw [a1]
      simpa using markHeap_cons_true (fun _ => true) playerClosed s.heap e.1
        (es.map Prod.fst) rfl
    · rw [a3]; simp [stopEvents]
    · rw [a6]; simp

theorem pauseLoop_spec (media : Sound) (K : Nat → Bool) (l : List (Nat × Option Nat))
    (s : soundMgr) (hK : ∀ a, boundTo s.heap media.Path a = K a) :
    (l.foldl (pauseStep media) s).heap = markHeap K playerPaused s.heap (l.map Prod.fst) ∧
    (l.foldl (pauseStep media) s).players = s.players ∧
    (l.foldl (pauseStep media) s).trace = s.trace ++ l.flatMap (callEvents K Event.pause) := by
  induction l generalizing s with
  | nil => simp [markHeap_nil]
  | cons e es ih =>
    simp only [List.foldl_cons, List.flatMap_cons, List.map_cons]
    by_cases hb : (s.heap e.1).media.Path = media.Path
    · have hk : K e.1 = true := by rw [← hK]; simp [boundTo, hb]
      have hs : pauseStep media s e = (s.emit [Event.pause e.1]).setState e.1 playerPaused := by
        simp only [pauseStep]
        rw [if_pos hb]
      rw [hs]
      obtain ⟨a1, a2, a3⟩ :=
        ih ((s.emit [Event.pause e.1]).setState e.1 playerPaused)
          (by
            intro a
            rw [← hK]
            simpa using boundTo_update_state s.heap media.Path e.1 playerPaused a)
      refine ⟨?_, by simpa using a2, ?_⟩
      · rw [a1]
        simpa using markHeap_cons_true K playerPaused s.heap e.1 (es.map Prod.fst) hk
      · rw [a3]; simp [callEvents, hk]
    · have hk : K e.1 = false := by rw [← hK]; simp [boundTo, hb]
      have hs : pauseStep media s e = s := by
        simp only [pauseStep]
        rw [if_neg hb]
      rw [hs]
      obtain ⟨a1, a2, a3⟩ := ih s hK
      refine ⟨?_, a2, ?_⟩
      · rw [a1, markHeap_cons_false K playerPaused s.heap e.1 _ hk]
      · rw [a3]; simp [callEvents, hk]

theorem resumeLoop_spec (media : Sound) (K : Nat → Bool) (l : List (Nat × Option Nat))
    (s : soundMgr) (hK : ∀ a, boundTo s.heap media.Path a = K a) :
    (l.foldl (resumeStep media) s).heap = markHeap K playerPlay s.heap (l.map Prod.fst) ∧
    (l.foldl (resumeStep media) s).players = s.players ∧
    (l.foldl (resumeStep media) s).trace = s.trace ++ l.flatMap (callEvents K Event.play) := by
  induction l generalizing s with
  | nil => simp [markHeap_nil]
  | cons e es ih =>
    simp only [List.foldl_cons, List.flatMap_cons, List.map_cons]
    by_cases hb : (s.heap e.1).media.Path = media.Path
    · have hk : K e.1 = true := by rw [← hK]; simp [boundTo, hb]
      have hs : resumeStep media s e = (s.emit [Event.play e.1]).setState e.1 playerPlay := by
        simp only [resumeStep]
        rw [if_pos hb]
      rw [hs]
      obtain ⟨a1, a2, a3⟩ :=
        ih ((s.emit [Event.play e.1]).setState e.1 playerPlay)
          (by
            intro a
            rw [← hK]
            simpa using boundTo_update_state s.heap media.Path e.1 playerPlay a)
      refine ⟨?_, by simpa using a2, ?_⟩
      · rw [a1]
        simpa using markHeap_cons_true K playerPlay s.heap e.1 (es.map Prod.fst) hk
      · rw [a3]; simp [callEvents, hk]
    · have hk : K e.1 = false := by rw [← hK]; simp [boundTo, hb]
      have hs : resumeStep media s e = s := by
        simp only [resumeStep]
        rw [if_neg hb]
      rw [hs]
      obtain ⟨a1, a2, a3⟩ := ih s hK
      refine ⟨?_, a2, ?_⟩
      · rw [a1, markHeap_cons_false K playerPlay s.heap e.1 _ hk]
      · rw [a3]; simp [callEvents, hk]

theorem playContinueLoop_spec (media : Sound) (K : Nat → Bool)
    (l : List (Nat × Option Nat)) (s : soundMgr) (b : Bool)
    (hK : ∀ a, boundTo s.heap media.Path a = K a) :
    (l.foldl (playContinueStep media) (s, b)).1.heap =
      markHeap K playerLoopPlay s.heap (l.map Prod.fst) ∧
    (l.foldl (playContinueStep media) (s, b)).1.players = s.players ∧
    (l.foldl (playContinueStep media) (s, b)).1.trace = s.trace ∧
    (l.foldl (playContinueStep media) (s, b)).2 = (b || (l.map Prod.fst).any K) := by
  induction l generalizing s b with
  | nil => simp [markHeap_nil]
  | cons e es ih =>
    simp only [List.foldl_cons, List.map_cons]
    by_cases hb : (s.heap e.1).media.Path = media.Path
    · have hk : K e.1 = true := by rw [← hK]; simp [boundTo, hb]
      have hs : playContinueStep media (s, b) e = (s.setState e.1 playerLoopPlay, true) := by
        simp only [playContinueStep]
        rw [if_pos hb]
      rw [hs]
      obtain ⟨a1, a2, a3, a6⟩ :=
        ih (s.setState e.1 playerLoopPlay) true
          (by
            intro a
            rw [← hK]
            simpa using boundTo_update_state s.heap media.Path e.1 playerLoopPlay a)
      refine ⟨?_, by simpa using a2, by simpa using a3, ?_⟩
      · rw [a1]
        simpa using markHeap_cons_true K playerLoopPlay s.heap e.1 (es.map Prod.fst) hk
      · rw [a6]; simp [hk]
    · have hk : K e.1 = false := by rw [← hK]; simp [boundTo, hb]
      have hs : playContinueStep media (s, b) e = (s, b) := by
        simp only [playContinueStep]
        rw [if_neg hb]
      rw [hs]
      obtain ⟨a1, a2, a3, a6⟩ := ih s b hK
      refine ⟨?_, a2, a3, ?_⟩
      · rw [a1, markHeap_cons_false K playerLoopPlay s.heap e.1 _ hk]
      · rw [a6]; simp [hk]

/-! ## The methods as a whole -/

theorem stop_heap (s : soundMgr) (media : Sound) :
    (stop s media).heap =
      markHeap (boundTo s.heap media.Path) playerClosed s.heap (s.players.map Prod.fst) := by
  unfold stop
  simp only []
  rw [(deleteAll_rest _ _).1, (stopLoop_spec media _ s.players s [] (fun _ => rfl)).1]

theorem stop_trace (s : soundMgr) (media : Sound) :
    (stop s media).trace =
      s.trace ++ s.players.flatMap (stopEvents (boundTo s.heap media.Path)) := by
  unfold stop
  simp only []
  rw [(deleteAll_rest _ _).2, (stopLoop_spec media _ s.players s [] (fun _ => rfl)).2.2.1]

theorem stop_players (s : soundMgr) (media : Sound) :
    (stop s media).players =
      s.players.filter (fun e => !boundTo s.heap media.Path e.1) := by
  unfold stop
  simp only []
  rw [deleteAll_players, (stopLoop_spec media _ s.players s [] (fun _ => rfl)).2.1,
    (stopLoop_spec media _ s.players s [] (fun _ => rfl)).2.2.2]
  apply List.filter_congr
  intro e he
  have hk : e.1 ∈ s.players.map Prod.fst := List.mem_map_of_mem _ he
  cases hr : boundTo s.heap media.Path e.1 <;> simp [List.mem_filter, hr, hk]

theorem stopAll_heap (s : soundMgr) :
    (stopAll s).heap =
      markHeap (fun _ => true) playerClosed s.heap (s.players.map Prod.fst) := by
  unfold stopAll
  simp only []
  rw [(deleteAll_rest _ _).1, (stopAllLoop_spec s.players s []).1]

theorem stopAll_trace (s : soundMgr) :
    (stopAll s).trace = s.trace ++ s.players.flatMap (stopEvents (fun _ => true)) := by
  unfold stopAll
  simp only []
  rw [(deleteAll_rest _ _).2, (stopAllLoop_spec s.players s []).2.2.1]

theorem stopAll_players (s : soundMgr) : (stopAll s).players = [] := by
  unfold stopAll
  simp only []
  rw [deleteAll_players, (stopAllLoop_spec s.players s []).2.1,
    (stopAllLoop_spec s.players s []).2.2.2]
  rw [List.filter_eq_nil_iff]
  intro e he
  have hk : e.1 ∈ s.players.map Prod.fst := List.mem_map_of_mem _ he
  simpa using hk

theorem pause_spec (s : soundMgr) (media : Sound) :
    (pause s media).heap =
      markHeap (boundTo s.heap media.Path) playerPaused s.heap (s.players.map Prod.fst) ∧
    (pause s media).players = s.players ∧
    (pause s media).trace =
      s.trace ++ s.players.flatMap (callEvents (boundTo s.heap media.Path) Event.pause) :=
  pauseLoop_spec media _ s.players s (fun _ => rfl)

theorem resume_spec (s : soundMgr) (media : Sound) :
    (resume s media).heap =
      markHeap (boundTo s.heap media.Path) playerPlay s.heap (s.players.map Prod.fst) ∧
    (resume s media).players = s.players ∧
    (resume s media).trace =
      s.trace ++ s.players.flatMap (callEvents (boundTo s.heap media.Path) Event.play) :=
  resumeLoop_spec media _ s.players s (fun _ => rfl)

theorem mem_stopEvents_close (K : Nat → Bool) (l : List (Nat × Option Nat)) (a : Nat) :
    Event.close a ∈ l.flatMap (stopEvents K) ↔ a ∈ l.map Prod.fst ∧ K a = true := by
  simp only [List.mem_flatMap, List.mem_map]
  constructor
  · rintro ⟨e, he, hm⟩
    unfold stopEvents at hm
    split at hm
    · rename_i hk
      cases hd : e.2 <;> simp [signalEvents, hd] at hm <;> subst hm <;>
        exact ⟨⟨e, he, rfl⟩, hk⟩
    · simp at hm
  · rintro ⟨⟨e, he, rfl⟩, hk⟩
    exact ⟨e, he, by simp [stopEvents, hk]⟩

theorem mem_updateEvents_close (o : Nat → Bool) (h : Nat → soundPlayer)
    (l : List (Nat × Option Nat)) (a : Nat) :
    Event.close a ∈ l.flatMap (updateEvents o h) ↔
      a ∈ l.map Prod.fst ∧ reaped o h a = true := by
  simp only [List.mem_flatMap, List.mem_map]
  constructor
  · rintro ⟨e, he, hm⟩
    unfold updateEvents at hm
    split at hm
    · rename_i h1
      split at hm
      · simp at hm
      · rename_i h2
        simp only [Bool.and_eq_true] at h1
        cases hd : e.2 <;> simp [signalEvents, hd] at hm <;> subst hm <;>
          exact ⟨⟨e, he, rfl⟩, by simp [reaped, h1.1, h1.2, h2]⟩
    · simp at hm
  · rintro ⟨⟨e, he, rfl⟩, hk⟩
    refine ⟨e, he, ?_⟩
    simp only [reaped, Bool.and_eq_true, decide_eq_true_eq] at hk
    unfold updateEvents
    rw [if_pos (by simp only [Bool.and_eq_true, decide_eq_true_eq]; exact hk.1),
      if_neg hk.2]
    simp

/-! ## Claims -/

/-- C1: after `stop` the map holds no entry bound to the path, it is the
previous map restricted to the entries bound to another path, those entries
keep their object (state included) and their channel, and every removed
player has been closed and has state `playerClosed`. -/
theorem stop_removes_bound (s : soundMgr) (media : Sound) :
    (∀ e ∈ (stop s media).players,
      ((stop s media).heap e.1).media.Path ≠ media.Path) ∧
    (stop s media).players =
      s.players.filter (fun e => decide ((s.heap e.1).media.Path ≠ media.Path)) ∧
    (∀ e ∈ (stop s media).players, (stop s media).heap e.1 = s.heap e.1) ∧
    (∀ e ∈ s.players, (s.heap e.1).media.Path = media.Path →
      e ∉ (stop s media).players ∧
      Event.close e.1 ∈ newEvents s (stop s media) ∧
      ((stop s media).heap e.1).state = playerClosed) := by
  have hp : (stop s media).players =
      s.players.filter (fun e => decide ((s.heap e.1).media.Path ≠ media.Path)) := by
    rw [stop_players]
    apply List.filter_congr
    intro e _
    simp [boundTo]
  have hkeep : ∀ e ∈ (stop s media).players, (stop s media).heap e.1 = s.heap e.1 := by
    intro e he
    rw [hp, List.mem_filter] at he
    have hne : (s.heap e.1).media.Path ≠ media.Path := by simpa using he.2
    rw [stop_heap]
    simp [markHeap, boundTo, hne]
  refine ⟨?_, hp, hkeep, ?_⟩
  · intro e he
    rw [hkeep e he]
    rw [hp, List.mem_filter] at he
    simpa using he.2
  · intro e he hb
    refine ⟨?_, ?_, ?_⟩
    · rw [hp, List.mem_filter]
      simp [hb]
    · rw [newEvents_append s _ _ (stop_trace s media), mem_stopEvents_close]
      exact ⟨List.mem_map_of_mem _ he, by simp [boundTo, hb]⟩
    · rw [stop_heap, markHeap_state]
      have hk : e.1 ∈ s.players.map Prod.fst := List.mem_map_of_mem _ he
      simp [boundTo, hb, hk]

/-- C1, on the sample registry: stopping "jump.wav" leaves the music and the
paused effect and closes both instances of "jump.wav". -/
theorem stop_removes_bound_witness :
    (stop demo { Path := "jump.wav" }).players = [(0, none), (2, some 1)] ∧
    ((stop demo { Path := "jump.wav" }).heap 1).state = playerClosed ∧
    ((stop demo { Path := "jump.wav" }).heap 3).state = playerClosed ∧
    Event.close 1 ∈ newEvents demo (stop demo { Path := "jump.wav" }) := by
  have h := stop_removes_bound demo { Path := "jump.wav" }
  refine ⟨?_, ?_, ?_, ?_⟩
  · rw [h.2.1]; decide
  · exact (h.2.2.2 (1, some 0) (by decide) (by decide)).2.2
  · exact (h.2.2.2 (3, none) (by decide) (by decide)).2.2
  · exact (h.2.2.2 (1, some 0) (by decide) (by decide)).2.1

/-- C2: one call of `update` removes exactly the entries whose state is
neither `playerPaused` nor `playerLoopPlay` and whose handle reports that it
is not playing; each of them is closed and removed, every other entry stays
in the map, and no object changes its state. -/
theorem update_reaps_exactly (isPlaying : Nat → Bool) (s : soundMgr) :
    (update isPlaying s).players =
      s.players.filter (fun e =>
        !(decide ((s.heap e.1).state ≠ playerPaused) &&
          decide ((s.heap e.1).state ≠ playerLoopPlay) && !isPlaying e.1)) ∧
    (∀ e ∈ s.players, (s.heap e.1).state ≠ playerPaused →
      (s.heap e.1).state ≠ playerLoopPlay → isPlaying e.1 = false →
      e ∉ (update isPlaying s).players ∧
      Event.close e.1 ∈ newEvents s (update isPlaying s)) ∧
    (∀ e ∈ s.players,
      ((s.heap e.1).state = playerPaused ∨ (s.heap e.1).state = playerLoopPlay ∨
        isPlaying e.1 = true) →
      e ∈ (update isPlaying s).players) ∧
    (update isPlaying s).heap = s.heap := by
  have hp : (update isPlaying s).players =
      s.players.filter (fun e =>
        !(decide ((s.heap e.1).state ≠ playerPaused) &&
          decide ((s.heap e.1).state ≠ playerLoopPlay) && !isPlaying e.1)) := by
    rw [update_players]
    apply List.filter_congr
    intro e _
    simp only [reaped]
    cases isPlaying e.1 <;> simp
  refine ⟨hp, ?_, ?_, update_heap isPlaying s⟩
  · intro e he h1 h2 h3
    constructor
    · rw [hp, List.mem_filter]
      simp [h1, h2, h3]
    · rw [newEvents_append s _ _ (update_trace isPlaying s), mem_updateEvents_close]
      exact ⟨List.mem_map_of_mem _ he, by simp [reaped, h1, h2, h3]⟩
  · intro e he h
    rw [hp, List.mem_filter]
    refine ⟨he, ?_⟩
    rcases h with h | h | h <;> simp [h]

/-- C2, on the sample registry with a silent device: both playing effects are
closed and removed, the paused effect and the looping music stay. -/
theorem update_reaps_exactly_witness :
    (1, some 0) ∉ (update silent demo).players ∧
    Event.close 1 ∈ newEvents demo (update silent demo) ∧
    (2, some 1) ∈ (update silent demo).players ∧
    (0, none) ∈ (update silent demo).players ∧
    ((update silent demo).heap 2).state = playerPaused := by
  have h := update_reaps_exactly silent demo
  refine ⟨?_, ?_, ?_, ?_, ?_⟩
  · exact (h.2.1 (1, some 0) (by decide) (by decide) (by decide) (by decide)).1
  · exact (h.2.1 (1, some 0) (by decide) (by decide) (by decide) (by decide)).2
  · exact h.2.2.1 (2, some 1) (by decide) (Or.inl (by decide))
  · exact h.2.2.1 (0, none) (by decide) (Or.inr (Or.inl (by decide)))
  · rw [h.2.2.2]; decide

theorem visit_players (rank : Nat → Nat) (s : soundMgr) :
    (visit rank s).players.Perm s.players :=
  List.perm_insertionSort _ _

theorem mem_visit (rank : Nat → Nat) (s : soundMgr) (e : Nat × Option Nat) :
    e ∈ (visit rank s).players ↔ e ∈ s.players :=
  (visit_players rank s).mem_iff

theorem updates_cons (o : Tick) (os : List Tick) (s : soundMgr) :
    updates (o :: os) s = updates os (update o.isPlaying (visit o.rank s)) := rfl

theorem updates_heap (os : List Tick) (s : soundMgr) : (updates os s).heap = s.heap := by
  induction os generalizing s with
  | nil => rfl
  | cons o os ih =>
    rw [updates_cons, ih, update_heap]
    rfl

/-- The effects of a sequence of `update` calls. -/
theorem updates_trace (os : List Tick) (s : soundMgr) :
    ∃ evs, (updates os s).trace = s.trace ++ evs ∧
      ∀ a, Event.close a ∈ evs → ∃ o ∈ os, reaped o.isPlaying s.heap a = true := by
  induction os generalizing s with
  | nil => exact ⟨[], by simp [updates], by simp⟩
  | cons o os ih =>
    obtain ⟨evs, h1, h2⟩ := ih (update o.isPlaying (visit o.rank s))
    refine ⟨(visit o.rank s).players.flatMap (updateEvents o.isPlaying s.heap) ++ evs,
      ?_, ?_⟩
    · rw [updates_cons, h1, update_trace, List.append_assoc]
      rfl
    · intro a ha
      rcases List.mem_append.1 ha with ha | ha
      · exact ⟨o, List.mem_cons_self _ _,
          ((mem_updateEvents_close o.isPlaying s.heap _ a).1 ha).2⟩
      · obtain ⟨o2, ho2, hr⟩ := h2 a ha
        rw [update_heap] at hr
        exact ⟨o2, List.mem_cons_of_mem _ ho2, hr⟩

theorem updates_keeps_loop (os : List Tick) (s : soundMgr) (e : Nat × Option Nat)
    (he : e ∈ s.players) (hl : (s.heap e.1).state = playerLoopPlay) :
    e ∈ (updates os s).players := by
  induction os generalizing s with
  | nil => exact he
  | cons o os ih =>
    rw [updates_cons]
    apply ih
    · rw [update_players, List.mem_filter]
      exact ⟨(mem_visit o.rank s e).2 he, by
        have : (visit o.rank s).heap = s.heap := rfl
        simp [reaped, this, hl]⟩
    · rw [update_heap]; exact hl

theorem restart_events (o : Nat → Bool) (h : Nat → soundPlayer)
    (l : List (Nat × Option Nat)) (e : Nat × Option Nat) (he : e ∈ l)
    (hl : (h e.1).state = playerLoopPlay) (ho : o e.1 = false) :
    ∃ a b, l.flatMap (updateEvents o h) = a ++ [Event.rewind e.1, Event.play e.1] ++ b := by
  obtain ⟨l1, l2, rfl⟩ := List.append_of_mem he
  refine ⟨l1.flatMap (updateEvents o h), l2.flatMap (updateEvents o h), ?_⟩
  have hu : updateEvents o h e = [Event.rewind e.1, Event.play e.1] := by
    simp [updateEvents, ho, hl]
  simp [List.flatMap_append, hu]

/-- C3: an instance in state `playerLoopPlay` survives every finite sequence
of `update` calls, whatever the device answers and in whatever order each call
visits the map: it is still in the map with state `playerLoopPlay`, no `Close`
of its handle is among the effects of the sequence, and every `update` of the
sequence that finds it not playing performs `Rewind` then `Play` on it and
keeps it in the map. -/
theorem loop_survives_updates (s : soundMgr) (e : Nat × Option Nat)
    (he : e ∈ s.players) (hl : (s.heap e.1).state = playerLoopPlay)
    (os : List Tick) :
    e ∈ (updates os s).players ∧
    ((updates os s).heap e.1).state = playerLoopPlay ∧
    Event.close e.1 ∉ newEvents s (updates os s) ∧
    (∀ pre o post, os = pre ++ o :: post → o.isPlaying e.1 = false →
      (∃ a b, newEvents (updates pre s) (updates (pre ++ [o]) s) =
        a ++ [Event.rewind e.1, Event.play e.1] ++ b) ∧
      e ∈ (updates (pre ++ [o]) s).players ∧
      ((updates (pre ++ [o]) s).heap e.1).state = playerLoopPlay) := by
  refine ⟨updates_keeps_loop os s e he hl, by rw [updates_heap]; exact hl, ?_, ?_⟩
  · obtain ⟨evs, h1, h2⟩ := updates_trace os s
    rw [newEvents_append s _ evs h1]
    intro hc
    obtain ⟨o, _, hr⟩ := h2 e.1 hc
    simp [reaped, hl] at hr
  · intro pre o post _ ho
    have hin : e ∈ (updates pre s).players := updates_keeps_loop pre s e he hl
    have hst : ((updates pre s).heap e.1).state = playerLoopPlay := by
      rw [updates_heap]; exact hl
    have hone : updates (pre ++ [o]) s =
        update o.isPlaying (visit o.rank (updates pre s)) := by
      simp [updates, List.foldl_append]
    refine ⟨?_, updates_keeps_loop _ s e he hl, by rw [updates_heap]; exact hl⟩
    have htr : (update o.isPlaying (visit o.rank (updates pre s))).trace =
        (updates pre s).trace ++ (visit o.rank (updates pre s)).players.flatMap
          (updateEvents o.isPlaying (updates pre s).heap) :=
      update_trace o.isPlaying (visit o.rank (updates pre s))
    rw [hone, newEvents_append _ _ _ htr]
    exact restart_events o.isPlaying _ _ e ((mem_visit o.rank _ e).2 hin) hst ho

/-- C3, on the sample registry: three ticks of a silent device keep the
looping music registered and looping. -/
theorem loop_survives_updates_witness :
    (0, none) ∈ (updates [silentTick, silentTick, silentTick] demo).players ∧
    ((updates [silentTick, silentTick, silentTick] demo).heap 0).state = playerLoopPlay ∧
    Event.close 0 ∉ newEvents demo (updates [silentTick, silentTick, silentTick] demo) :=
  have h := loop_survives_updates demo (0, none) (by decide) (by decide)
    [silentTick, silentTick, silentTick]
  ⟨h.1, h.2.1, h.2.2.1⟩

/-! ## `play` -/

theorem le_foldr_max (l : List Nat) (x : Nat) (hx : x ∈ l) : x ≤ l.foldr max 0 := by
  induction l with
  | nil => simp at hx
  | cons y ys ih =>
    simp only [List.foldr_cons]
    rcases List.mem_cons.1 hx with h | h
    · subst h; exact le_max_left _ _
    · exact le_trans (ih h) (le_max_right _ _)

theorem freshPtr_not_key (s : soundMgr) (e : Nat × Option Nat) (he : e ∈ s.players) :
    e.1 ≠ freshPtr s := by
  have h := le_foldr_max (s.players.map Prod.fst) e.1 (List.mem_map_of_mem _ he)
  unfold freshPtr
  omega

theorem freshChan_not_held (s : soundMgr) (c : Nat)
    (hc : c ∈ s.players.filterMap Prod.snd ∨ c ∈ deliveries s.trace) : c ≠ freshChan s := by
  have h := le_foldr_max (s.players.filterMap Prod.snd ++ deliveries s.trace) c
    (List.mem_append.2 hc)
  unfold freshChan
  omega

theorem play_open_fails (env : Env) (s : soundMgr) (media : Sound) (wait : Bool)
    (action : ActionState) (err : Error) (h1 : env.fsOpen media.Path = some err) :
    play env s media wait action = (Outcome.panicked err, s.emit [Event.fsOpen media.Path]) := by
  simp [play, h1]

theorem play_decode_fails (env : Env) (s : soundMgr) (media : Sound) (wait : Bool)
    (action : ActionState) (err : Error) (h1 : env.fsOpen media.Path = none)
    (h2 : env.decode media.Path = some err) :
    play env s media wait action =
      (Outcome.returned (some err),
        s.emit [Event.fsOpen media.Path, Event.decode media.Path,
          Event.sourceClose media.Path]) := by
  simp [play, h1, h2, soundMgr.emit]

theorem play_device_fails (env : Env) (s : soundMgr) (media : Sound) (wait : Bool)
    (action : ActionState) (err : Error) (h1 : env.fsOpen media.Path = none)
    (h2 : env.decode media.Path = none) (h3 : env.newPlayer media.Path = some err) :
    (play env s media wait action).1 = Outcome.returned (some err) ∧
    (play env s media wait action).2.players = s.players ∧
    (play env s media wait action).2.heap =
      Function.update s.heap (freshPtr s) { media := media, state := playerPaused } ∧
    (play env s media wait action).2.trace =
      s.trace ++ [Event.fsOpen media.Path, Event.decode media.Path,
        Event.newPlayer (freshPtr s), Event.sourceClose media.Path] := by
  simp [play, h1, h2, h3, soundMgr.emit, soundMgr.setMedia, freshPtr, zeroPlayer]

theorem startState_ne_closed (action : ActionState) : startState action ≠ playerClosed := by
  cases action <;> simp [startState]

theorem play_succeeds (env : Env) (s : soundMgr) (media : Sound) (wait : Bool)
    (action : ActionState) (h1 : env.fsOpen media.Path = none)
    (h2 : env.decode media.Path = none) (h3 : env.newPlayer media.Path = none) :
    (play env s media wait action).1 =
      (if wait then Outcome.waiting (freshChan s) else Outcome.returned none) ∧
    (play env s media wait action).2.players =
      insertPlayer s.players (freshPtr s) (if wait then some (freshChan s) else none) ∧
    (play env s media wait action).2.heap =
      Function.update s.heap (freshPtr s) { media := media, state := startState action } ∧
    (play env s media wait action).2.trace =
      s.trace ++ [Event.fsOpen media.Path, Event.decode media.Path,
        Event.newPlayer (freshPtr s), Event.play (freshPtr s)] := by
  cases wait <;> cases action <;>
    simp [play, h1, h2, h3, soundMgr.emit, soundMgr.setMedia, soundMgr.setState, freshPtr,
      freshChan, zeroPlayer, playState, addPlayer, startState, deliveries,
      List.filterMap_append, List.filterMap_cons]

/-! ## Effects of the loops -/

theorem mem_callEvents (K : Nat → Bool) (f : Nat → Event) (l : List (Nat × Option Nat))
    (ev : Event) :
    ev ∈ l.flatMap (callEvents K f) ↔ ∃ e ∈ l, K e.1 = true ∧ ev = f e.1 := by
  simp only [List.mem_flatMap]
  constructor
  · rintro ⟨e, he, hm⟩
    unfold callEvents at hm
    split at hm
    · rename_i hk
      exact ⟨e, he, hk, by simpa using hm⟩
    · simp at hm
  · rintro ⟨e, he, hk, rfl⟩
    exact ⟨e, he, by simp [callEvents, hk]⟩

theorem deliveries_stopEvents (K : Nat → Bool) (l : List (Nat × Option Nat)) :
    deliveries (l.flatMap (stopEvents K)) =
      (l.filter (fun e => K e.1)).filterMap Prod.snd := by
  induction l with
  | nil => rfl
  | cons e es ih =>
    rw [List.flatMap_cons, deliveries_append, ih]
    cases hk : K e.1
    · simp [stopEvents, hk, deliveries, List.filter_cons]
    · have h1 : deliveries (stopEvents K e) = e.2.toList := by
        cases hd : e.2 <;> simp [stopEvents, hk, deliveries, signalEvents, hd]
      rw [h1]
      cases hd : e.2 <;> simp [List.filter_cons, hk, List.filterMap_cons, hd]

theorem deliveries_updateEvents (o : Nat → Bool) (h : Nat → soundPlayer)
    (l : List (Nat × Option Nat)) :
    deliveries (l.flatMap (updateEvents o h)) =
      (l.filter (fun e => reaped o h e.1)).filterMap Prod.snd := by
  induction l with
  | nil => rfl
  | cons e es ih =>
    rw [List.flatMap_cons, deliveries_append, ih]
    cases hk : reaped o h e.1
    · have h1 : deliveries (updateEvents o h e) = [] := by
        unfold updateEvents
        split
        · rename_i hc
          split
          · simp [deliveries]
          · rename_i hl
            simp only [Bool.and_eq_true] at hc
            simp [reaped, hc.1, hc.2, hl] at hk
        · rfl
      simp [h1, List.filter_cons, hk]
    · have hk2 := hk
      simp only [reaped, Bool.and_eq_true, decide_eq_true_eq] at hk2
      have h1 : deliveries (updateEvents o h e) = e.2.toList := by
        unfold updateEvents
        rw [if_pos (by simp only [Bool.and_eq_true, decide_eq_true_eq]; exact hk2.1),
          if_neg hk2.2]
        cases hd : e.2 <;> simp [deliveries, signalEvents, hd]
      rw [h1]
      cases hd : e.2 <;> simp [List.filter_cons, hk, List.filterMap_cons, hd]

theorem deliveries_callEvents (K : Nat → Bool) (f : Nat → Event)
    (hf : ∀ a c, f a ≠ Event.send c) (l : List (Nat × Option Nat)) :
    deliveries (l.flatMap (callEvents K f)) = [] := by
  induction l with
  | nil => rfl
  | cons e es ih =>
    rw [List.flatMap_cons, deliveries_append, ih]
    unfold callEvents
    split
    · have hne := hf e.1
      cases hfe : f e.1 with
      | send c => exact absurd hfe (hne c)
      | _ => simp [deliveries, hfe]
    · rfl

/-! ## Claims on `play`, `resume`, `pause`, `stopAll` -/

/-- C4, as stated, fails: when the asset cannot be opened `play` panics with
the error instead of returning it. -/
theorem play_open_failure_panics :
    brokenFs.fsOpen "missing.wav" = some "ENOENT" ∧
    (play brokenFs demo { Path := "missing.wav" } false ActionPlay).1 ≠
      Outcome.returned (some "ENOENT") ∧
    (play brokenFs demo { Path := "missing.wav" } false ActionPlay).1 =
      Outcome.panicked "ENOENT" := by
  decide

/-- C4, amended: when decoding or opening the device player fails, `play`
returns that error; when opening the asset fails, `play` panics with that
error; in all three cases the map is unchanged and every registered player
keeps its object, so no entry is created. -/
theorem play_failure_keeps_registry (env : Env) (s : soundMgr) (media : Sound)
    (wait : Bool) (action : ActionState) :
    (∀ err, env.fsOpen media.Path = some err →
      (play env s media wait action).1 = Outcome.panicked err ∧
      (play env s media wait action).2.players = s.players ∧
      (play env s media wait action).2.heap = s.heap) ∧
    (∀ err, env.fsOpen media.Path = none → env.decode media.Path = some err →
      (play env s media wait action).1 = Outcome.returned (some err) ∧
      (play env s media wait action).2.players = s.players ∧
      (play env s media wait action).2.heap = s.heap) ∧
    (∀ err, env.fsOpen media.Path = none → env.decode media.Path = none →
      env.newPlayer media.Path = some err →
      (play env s media wait action).1 = Outcome.returned (some err) ∧
      (play env s media wait action).2.players = s.players ∧
      ∀ e ∈ s.players, (play env s media wait action).2.heap e.1 = s.heap e.1) := by
  refine ⟨?_, ?_, ?_⟩
  · intro err h1
    rw [play_open_fails env s media wait action err h1]
    exact ⟨rfl, rfl, rfl⟩
  · intro err h1 h2
    rw [play_decode_fails env s media wait action err h1 h2]
    exact ⟨rfl, rfl, rfl⟩
  · intro err h1 h2 h3
    obtain ⟨a1, a2, a3, _⟩ := play_device_fails env s media wait action err h1 h2 h3
    refine ⟨a1, a2, ?_⟩
    intro e he
    rw [a3, Function.update_noteq (freshPtr_not_key s e he)]

/-- C4, amended, on the sample registry: the three failures. -/
theorem play_failure_keeps_registry_witness :
    (play brokenFs demo { Path := "missing.wav" } true ActionPlay).1 =
      Outcome.panicked "ENOENT" ∧
    (play brokenDecoder demo { Path := "noise.bin" } true ActionLoopPlay).1 =
      Outcome.returned (some "bad format") ∧
    (play brokenDecoder demo { Path := "noise.bin" } true ActionLoopPlay).2.players =
      demo.players ∧
    (play brokenDevice demo { Path := "jump.wav" } false ActionPlay).1 =
      Outcome.returned (some "no channel") ∧
    (play brokenDevice demo { Path := "jump.wav" } false ActionPlay).2.players =
      demo.players :=
  ⟨((play_failure_keeps_registry brokenFs demo { Path := "missing.wav" } true
      ActionPlay).1 "ENOENT" rfl).1,
   ((play_failure_keeps_registry brokenDecoder demo { Path := "noise.bin" } true
      ActionLoopPlay).2.1 "bad format" rfl rfl).1,
   ((play_failure_keeps_registry brokenDecoder demo { Path := "noise.bin" } true
      ActionLoopPlay).2.1 "bad format" rfl rfl).2.1,
   ((play_failure_keeps_registry brokenDevice demo { Path := "jump.wav" } false
      ActionPlay).2.2 "no channel" rfl rfl rfl).1,
   ((play_failure_keeps_registry brokenDevice demo { Path := "jump.wav" } false
      ActionPlay).2.2 "no channel" rfl rfl rfl).2.1⟩

/-- C5, as stated, fails: `resume` of the path of a registered instance in
state `playerLoopPlay`, which is not paused, changes its state to
`playerPlay`. -/
theorem resume_changes_looping :
    (0, none) ∈ demo.players ∧
    (demo.heap 0).state = playerLoopPlay ∧
    ((resume demo { Path := "bgm.mp3" }).heap 0).state = playerPlay ∧
    ((resume demo { Path := "bgm.mp3" }).heap 0).state ≠ (demo.heap 0).state := by
  decide

/-- C5, amended: `resume` sets every registered instance bound to the path
to `playerPlay`, whatever its state was, and calls `Play` on its handle; every
object bound to another path is unchanged, and the map is unchanged. -/
theorem resume_marks_bound (s : soundMgr) (media : Sound) :
    (resume s media).players = s.players ∧
    (∀ e ∈ s.players, (s.heap e.1).media.Path = media.Path →
      ((resume s media).heap e.1).state = playerPlay ∧
      Event.play e.1 ∈ newEvents s (resume s media)) ∧
    (∀ a, (s.heap a).media.Path ≠ media.Path → (resume s media).heap a = s.heap a) := by
  obtain ⟨a1, a2, a3⟩ := resume_spec s media
  refine ⟨a2, ?_, ?_⟩
  · intro e he hb
    have hk : e.1 ∈ s.players.map Prod.fst := List.mem_map_of_mem _ he
    constructor
    · rw [a1, markHeap_state]
      simp [boundTo, hb, hk]
    · rw [newEvents_append s _ _ a3, mem_callEvents]
      exact ⟨e, he, by simp [boundTo, hb], rfl⟩
  · intro a ha
    rw [a1]
    simp [markHeap, boundTo, ha]

/-- C5, amended, on the sample registry: resuming the paused effect. -/
theorem resume_marks_bound_witness :
    (resume demo { Path := "coin.wav" }).players = demo.players ∧
    ((resume demo { Path := "coin.wav" }).heap 2).state = playerPlay ∧
    (resume demo { Path := "coin.wav" }).heap 0 = demo.heap 0 :=
  have h := resume_marks_bound demo { Path := "coin.wav" }
  ⟨h.1, (h.2.1 (2, some 1) (by decide) (by decide)).1, h.2.2 0 (by decide)⟩

/-- C9: `pause` sets every registered instance bound to the path to
`playerPaused` and calls `Pause` on its handle; the map is unchanged, the only
effects are those `Pause` calls (no send on a channel, no `Close`), and every
object bound to another path is unchanged. -/
theorem pause_marks_bound (s : soundMgr) (media : Sound) :
    (pause s media).players = s.players ∧
    (∀ e ∈ s.players, (s.heap e.1).media.Path = media.Path →
      ((pause s media).heap e.1).state = playerPaused ∧
      Event.pause e.1 ∈ newEvents s (pause s media)) ∧
    (∀ ev ∈ newEvents s (pause s media),
      ∃ e ∈ s.players, (s.heap e.1).media.Path = media.Path ∧ ev = Event.pause e.1) ∧
    deliveries (newEvents s (pause s media)) = [] ∧
    (∀ a, Event.close a ∉ newEvents s (pause s media)) ∧
    (∀ a, (s.heap a).media.Path ≠ media.Path → (pause s media).heap a = s.heap a) := by
  obtain ⟨a1, a2, a3⟩ := pause_spec s media
  have hev : ∀ ev ∈ newEvents s (pause s media),
      ∃ e ∈ s.players, (s.heap e.1).media.Path = media.Path ∧ ev = Event.pause e.1 := by
    intro ev hev
    rw [newEvents_append s _ _ a3, mem_callEvents] at hev
    obtain ⟨e, he, hk, rfl⟩ := hev
    exact ⟨e, he, by simpa [boundTo] using hk, rfl⟩
  refine ⟨a2, ?_, hev, ?_, ?_, ?_⟩
  · intro e he hb
    have hk : e.1 ∈ s.players.map Prod.fst := List.mem_map_of_mem _ he
    constructor
    · rw [a1, markHeap_state]
      simp [boundTo, hb, hk]
    · rw [newEvents_append s _ _ a3, mem_callEvents]
      exact ⟨e, he, by simp [boundTo, hb], rfl⟩
  · rw [newEvents_append s _ _ a3]
    exact deliveries_callEvents _ _ (by intro a c h; cases h) _
  · intro a ha
    obtain ⟨e, _, _, h⟩ := hev _ ha
    cases h
  · intro a ha
    rw [a1]
    simp [markHeap, boundTo, ha]

/-- C9, on the sample registry: pausing "jump.wav". -/
theorem pause_marks_bound_witness :
    (pause demo { Path := "jump.wav" }).players = demo.players ∧
    ((pause demo { Path := "jump.wav" }).heap 1).state = playerPaused ∧
    Event.pause 3 ∈ newEvents demo (pause demo { Path := "jump.wav" }) ∧
    (pause demo { Path := "jump.wav" }).heap 0 = demo.heap 0 :=
  have h := pause_marks_bound demo { Path := "jump.wav" }
  ⟨h.1, (h.2.1 (1, some 0) (by decide) (by decide)).1,
    (h.2.1 (3, none) (by decide) (by decide)).2, h.2.2.2.2.2 0 (by decide)⟩

/-- C10: after `stopAll` the map is empty, every player that was registered
has state `playerClosed` and has been closed, and the sends of the call are
exactly the channels of the entries, one send for each entry that holds a
channel; so a channel held by one entry received exactly one value. -/
theorem stopAll_clears (s : soundMgr) :
    (stopAll s).players = [] ∧
    (∀ e ∈ s.players,
      ((stopAll s).heap e.1).state = playerClosed ∧
      Event.close e.1 ∈ newEvents s (stopAll s)) ∧
    deliveries (newEvents s (stopAll s)) = s.players.filterMap Prod.snd ∧
    (∀ c, (s.players.filterMap Prod.snd).count c = 1 →
      (deliveries (newEvents s (stopAll s))).count c = 1) := by
  have hd : deliveries (newEvents s (stopAll s)) = s.players.filterMap Prod.snd := by
    rw [newEvents_append s _ _ (stopAll_trace s), deliveries_stopEvents]
    simp
  refine ⟨stopAll_players s, ?_, hd, ?_⟩
  · intro e he
    have hk : e.1 ∈ s.players.map Prod.fst := List.mem_map_of_mem _ he
    constructor
    · rw [stopAll_heap, markHeap_state]
      simp [hk]
    · rw [newEvents_append s _ _ (stopAll_trace s), mem_stopEvents_close]
      exact ⟨hk, rfl⟩
  · intro c hc
    rw [hd]; exact hc

/-- C10, on the sample registry: both waiters are released once. -/
theorem stopAll_clears_witness :
    (stopAll demo).players = [] ∧
    ((stopAll demo).heap 0).state = playerClosed ∧
    (deliveries (newEvents demo (stopAll demo))).count 0 = 1 ∧
    (deliveries (newEvents demo (stopAll demo))).count 1 = 1 :=
  have h := stopAll_clears demo
  ⟨h.1, (h.2.1 (0, none) (by decide)).1, h.2.2.2 0 (by decide), h.2.2.2 1 (by decide)⟩

/-! ## `playContinue` -/

theorem playContinue_hit_spec (env : Env) (s : soundMgr) (media : Sound) (wait : Bool)
    (hf : (s.players.map Prod.fst).any (boundTo s.heap media.Path) = true) :
    (playContinue env s media wait).1 = Outcome.returned none ∧
    (playContinue env s media wait).2.heap =
      markHeap (boundTo s.heap media.Path) playerLoopPlay s.heap (s.players.map Prod.fst) ∧
    (playContinue env s media wait).2.players = s.players ∧
    (playContinue env s media wait).2.trace = s.trace := by
  obtain ⟨a1, a2, a3, a4⟩ :=
    playContinueLoop_spec media (boundTo s.heap media.Path) s.players s false (fun _ => rfl)
  have hb : (s.players.foldl (playContinueStep media) (s, false)).2 ≠ false := by
    rw [a4, hf]; simp
  unfold playContinue
  simp only []
  rw [if_neg hb]
  exact ⟨rfl, a1, a2, a3⟩

theorem playContinue_missing_spec (env : Env) (s : soundMgr) (media : Sound) (wait : Bool)
    (hf : (s.players.map Prod.fst).any (boundTo s.heap media.Path) = false) :
    playContinue env s media wait = play env s media wait ActionLoopPlay := by
  obtain ⟨a1, a2, a3, a4⟩ :=
    playContinueLoop_spec media (boundTo s.heap media.Path) s.players s false (fun _ => rfl)
  have hb : (s.players.foldl (playContinueStep media) (s, false)).2 = false := by
    rw [a4, hf]; rfl
  have hh : markHeap (boundTo s.heap media.Path) playerLoopPlay s.heap
      (s.players.map Prod.fst) = s.heap := by
    funext a
    unfold markHeap
    split
    · rename_i h
      have := List.any_eq_false.1 hf a h.1
      exact absurd h.2 this
    · rfl
  have hs : (s.players.foldl (playContinueStep media) (s, false)).1 = s :=
    soundMgr.ext_fields (by rw [a1, hh]) a2 a3
  unfold playContinue
  simp only []
  rw [if_pos hb, hs]

theorem found_iff (s : soundMgr) (media : Sound) :
    (s.players.map Prod.fst).any (boundTo s.heap media.Path) = true ↔
      ∃ e ∈ s.players, (s.heap e.1).media.Path = media.Path := by
  simp [List.any_eq_true, boundTo]

/-- C6: when the map already holds an instance bound to the path,
`playContinue` returns no error, performs no effect at all (no open, no
decode, no new device player), leaves the map unchanged (so the number of
entries bound to the path is the same), sets every registered instance bound
to the path to `playerLoopPlay`, leaves every object bound to another path
unchanged, and is idempotent. -/
theorem playContinue_found (env : Env) (s : soundMgr) (media : Sound) (wait : Bool)
    (hf : ∃ e ∈ s.players, (s.heap e.1).media.Path = media.Path) :
    (playContinue env s media wait).1 = Outcome.returned none ∧
    newEvents s (playContinue env s media wait).2 = [] ∧
    (playContinue env s media wait).2.players = s.players ∧
    ((playContinue env s media wait).2.players.filter
        (fun e => boundTo (playContinue env s media wait).2.heap media.Path e.1)).length =
      (s.players.filter (fun e => boundTo s.heap media.Path e.1)).length ∧
    (∀ e ∈ s.players, (s.heap e.1).media.Path = media.Path →
      ((playContinue env s media wait).2.heap e.1).state = playerLoopPlay) ∧
    (∀ a, (s.heap a).media.Path ≠ media.Path →
      (playContinue env s media wait).2.heap a = s.heap a) ∧
    playContinue env (playContinue env s media wait).2 media wait =
      playContinue env s media wait := by
  have hany := (found_iff s media).2 hf
  obtain ⟨a1, a2, a3, a4⟩ := playContinue_hit_spec env s media wait hany
  have hK : boundTo (playContinue env s media wait).2.heap media.Path =
      boundTo s.heap media.Path := by
    funext a
    simp only [boundTo, a2, markHeap_media]
  have hany2 : ((playContinue env s media wait).2.players.map Prod.fst).any
      (boundTo (playContinue env s media wait).2.heap media.Path) = true := by
    rw [hK, a3]; exact hany
  obtain ⟨b1, b2, b3, b4⟩ :=
    playContinue_hit_spec env (playContinue env s media wait).2 media wait hany2
  refine ⟨a1, ?_, a3, ?_, ?_, ?_, ?_⟩
  · exact newEvents_append s _ [] (by rw [a4, List.append_nil])
  · rw [hK, a3]
  · intro e he hb
    have hk : e.1 ∈ s.players.map Prod.fst := List.mem_map_of_mem _ he
    rw [a2, markHeap_state]
    simp [boundTo, hb, hk]
  · intro a ha
    rw [a2]
    simp [markHeap, boundTo, ha]
  · apply Prod.ext
    · rw [b1, a1]
    · apply soundMgr.ext_fields
      · rw [b2, hK, a3, a2]
        funext a
        simp only [markHeap]
        split <;> rfl
      · rw [b3]
      · rw [b4]

/-- C6, on the sample registry: continuing the music that already loops. -/
theorem playContinue_found_witness :
    (playContinue brokenFs demo { Path := "bgm.mp3" } true).1 = Outcome.returned none ∧
    newEvents demo (playContinue brokenFs demo { Path := "bgm.mp3" } true).2 = [] ∧
    (playContinue brokenFs demo { Path := "bgm.mp3" } true).2.players = demo.players ∧
    ((playContinue brokenFs demo { Path := "bgm.mp3" } true).2.heap 0).state =
      playerLoopPlay :=
  have h := playContinue_found brokenFs demo { Path := "bgm.mp3" } true
    ⟨(0, none), by decide, by decide⟩
  ⟨h.1, h.2.1, h.2.2.1, h.2.2.2.2.1 (0, none) (by decide) (by decide)⟩

/-! ## The invariant "no registered player is closed" -/

theorem insertPlayer_fresh (l : List (Nat × Option Nat)) (k : Nat) (d : Option Nat)
    (h : ∀ e ∈ l, e.1 ≠ k) : insertPlayer l k d = l ++ [(k, d)] := by
  unfold insertPlayer
  rw [if_neg]
  simp only [List.any_eq_true, decide_eq_true_eq, not_exists, not_and]
  exact h

theorem play_summary (env : Env) (s : soundMgr) (media : Sound) (wait : Bool)
    (action : ActionState) :
    ∃ evs added, (play env s media wait action).2.trace = s.trace ++ evs ∧
      deliveries evs = [] ∧
      (play env s media wait action).2.players = s.players ++ added ∧
      (∀ e ∈ s.players, (play env s media wait action).2.heap e.1 = s.heap e.1) ∧
      (added = [] ∨
        (added = [(freshPtr s, if wait then some (freshChan s) else none)] ∧
          ((play env s media wait action).2.heap (freshPtr s)).state = startState action)) := by
  cases h1 : env.fsOpen media.Path with
  | some err =>
    rw [play_open_fails env s media wait action err h1]
    exact ⟨[Event.fsOpen media.Path], [], rfl, rfl, by simp, fun _ _ => rfl, Or.inl rfl⟩
  | none =>
    cases h2 : env.decode media.Path with
    | some err =>
      rw [play_decode_fails env s media wait action err h1 h2]
      exact ⟨_, [], rfl, rfl, by simp, fun _ _ => rfl, Or.inl rfl⟩
    | none =>
      cases h3 : env.newPlayer media.Path with
      | some err =>
        obtain ⟨_, a2, a3, a4⟩ := play_device_fails env s media wait action err h1 h2 h3
        refine ⟨_, [], a4, rfl, by simpa using a2, ?_, Or.inl rfl⟩
        intro e he
        rw [a3, Function.update_noteq (freshPtr_not_key s e he)]
      | none =>
        obtain ⟨_, a2, a3, a4⟩ := play_succeeds env s media wait action h1 h2 h3
        refine ⟨_, _, a4, rfl, ?_, ?_, Or.inr ⟨rfl, ?_⟩⟩
        · rw [a2]
          exact insertPlayer_fresh _ _ _ (fun e he => freshPtr_not_key s e he)
        · intro e he
          rw [a3, Function.update_noteq (freshPtr_not_key s e he)]
        · rw [a3]; simp

theorem play_noClosed (env : Env) (s : soundMgr) (media : Sound) (wait : Bool)
    (action : ActionState) (h : NoClosed s) : NoClosed (play env s media wait action).2 := by
  obtain ⟨evs, added, _, _, hp, hh, hadd⟩ := play_summary env s media wait action
  intro e he
  rw [hp] at he
  rcases List.mem_append.1 he with he | he
  · rw [hh e he]; exact h e he
  · rcases hadd with hadd | ⟨hadd, hst⟩
    · rw [hadd] at he; simp at he
    · rw [hadd] at he
      simp only [List.mem_singleton] at he
      subst he
      rw [hst]
      exact startState_ne_closed action

theorem markHeap_noClosed (K : Nat → Bool) (st : playerState) (hst : st ≠ playerClosed)
    (h : Nat → soundPlayer) (l : List (Nat × Option Nat))
    (hn : ∀ e ∈ l, (h e.1).state ≠ playerClosed) :
    ∀ e ∈ l, (markHeap K st h (l.map Prod.fst) e.1).state ≠ playerClosed := by
  intro e he
  rw [markHeap_state]
  split
  · exact hst
  · exact hn e he

theorem stop_keeps (s : soundMgr) (media : Sound) (e : Nat × Option Nat)
    (he : e ∈ (stop s media).players) :
    e ∈ s.players ∧ (stop s media).heap e.1 = s.heap e.1 := by
  rw [stop_players, List.mem_filter] at he
  refine ⟨he.1, ?_⟩
  rw [stop_heap]
  have hb : boundTo s.heap media.Path e.1 = false := by simpa using he.2
  simp [markHeap, hb]

theorem playContinue_noClosed (env : Env) (s : soundMgr) (media : Sound) (wait : Bool)
    (h : NoClosed s) : NoClosed (playContinue env s media wait).2 := by
  cases hf : (s.players.map Prod.fst).any (boundTo s.heap media.Path)
  · rw [playContinue_missing_spec env s media wait hf]
    exact play_noClosed env s media wait ActionLoopPlay h
  · obtain ⟨_, a2, a3, _⟩ := playContinue_hit_spec env s media wait hf
    intro e he
    rw [a3] at he
    rw [a2]
    exact markHeap_noClosed _ _ (by decide) _ _ h e he

theorem step_noClosed (op : Op) (s : soundMgr) (h : NoClosed s) : NoClosed (step op s) := by
  cases op with
  | range rank =>
    intro e he
    exact h e ((mem_visit rank s e).1 he)
  | update o =>
    intro e he
    simp only [step] at he ⊢
    rw [update_players, List.mem_filter] at he
    rw [update_heap]
    exact h e he.1
  | stop media =>
    intro e he
    simp only [step] at he ⊢
    obtain ⟨h1, h2⟩ := stop_keeps s media e he
    rw [h2]; exact h e h1
  | stopAll =>
    intro e he
    simp only [step] at he
    rw [stopAll_players] at he
    simp at he
  | pause media =>
    obtain ⟨a1, a2, _⟩ := pause_spec s media
    intro e he
    simp only [step] at he ⊢
    rw [a2] at he
    rw [a1]
    exact markHeap_noClosed _ _ (by decide) _ _ h e he
  | resume media =>
    obtain ⟨a1, a2, _⟩ := resume_spec s media
    intro e he
    simp only [step] at he ⊢
    rw [a2] at he
    rw [a1]
    exact markHeap_noClosed _ _ (by decide) _ _ h e he
  | playContinue env media wait => exact playContinue_noClosed env s media wait h
  | play env media wait action => exact play_noClosed env s media wait action h

theorem run_noClosed (ops : List Op) (s : soundMgr) (h : NoClosed s) :
    NoClosed (run ops s) := by
  induction ops generalizing s with
  | nil => exact h
  | cons op ops ih => exact ih (step op s) (step_noClosed op s h)

/-- C8: every call (`update`, `stop`, `stopAll`, `pause`, `resume`,
`playContinue`, `play`, whatever its outcome) keeps the invariant that no
registered player has state `playerClosed`, and the invariant holds in every
state reached from the empty map of `init` by a run of such calls. -/
theorem no_closed_player_registered :
    (∀ op s, NoClosed s → NoClosed (step op s)) ∧
    (∀ ops, NoClosed (run ops init)) :=
  ⟨step_noClosed, fun ops => run_noClosed ops init (by intro e he; cases he)⟩

/-- C8, on the sample registry: stopping an effect and then starting a new
sound keeps the invariant. -/
theorem no_closed_player_registered_witness :
    NoClosed demo ∧
    NoClosed (step (Op.stop { Path := "jump.wav" }) demo) ∧
    NoClosed (run [Op.play okEnv { Path := "bgm.mp3" } false ActionLoopPlay,
      Op.pause { Path := "bgm.mp3" }, Op.update silent] init) :=
  ⟨by decide,
   no_closed_player_registered.1 (Op.stop { Path := "jump.wav" }) demo (by decide),
   no_closed_player_registered.2 _⟩

/-! ## Channels along a run -/

theorem step_summary (op : Op) (t : soundMgr) :
    ∃ (R : Nat × Option Nat → Bool) (added : List (Nat × Option Nat)) (evs : List Event),
      (step op t).trace = t.trace ++ evs ∧
      deliveries evs = (t.players.filter R).filterMap Prod.snd ∧
      (step op t).players.Perm (t.players.filter (fun e => !R e) ++ added) ∧
      (∀ e ∈ t.players, R e = true → mayDeliver op t e) ∧
      (added = [] ∨ ∃ k d, added = [(k, d)] ∧ (d = none ∨ d = some (freshChan t))) := by
  have hplay : ∀ env media wait action,
      ∃ (added : List (Nat × Option Nat)) (evs : List Event),
        (play env t media wait action).2.trace = t.trace ++ evs ∧
        deliveries evs = (t.players.filter (fun _ => false)).filterMap Prod.snd ∧
        (play env t media wait action).2.players =
          t.players.filter (fun e => !(fun _ => false) e) ++ added ∧
        (added = [] ∨ ∃ k d, added = [(k, d)] ∧ (d = none ∨ d = some (freshChan t))) := by
    intro env media wait action
    obtain ⟨evs, added, a1, a2, a3, _, a5⟩ := play_summary env t media wait action
    refine ⟨added, evs, a1, by simpa using a2, by simpa using a3, ?_⟩
    rcases a5 with a5 | ⟨a5, _⟩
    · exact Or.inl a5
    · refine Or.inr ⟨_, _, a5, ?_⟩
      cases wait <;> simp
  cases op with
  | range rank =>
    refine ⟨fun _ => false, [], [], ?_, ?_, ?_, ?_, Or.inl rfl⟩
    · simp [step, visit]
    · simp [deliveries]
    · simpa [step] using visit_players rank t
    · intro e _ hr
      cases hr
  | update o =>
    refine ⟨fun e => reaped o t.heap e.1, [], _, update_trace o t,
      deliveries_updateEvents o t.heap t.players, List.Perm.of_eq ?_, ?_, Or.inl rfl⟩
    · simp only [step, List.append_nil]
      exact update_players o t
    · intro e _ hr
      simp only [reaped, Bool.and_eq_true, decide_eq_true_eq, Bool.not_eq_true'] at hr
      exact ⟨hr.1.1, hr.1.2, hr.2⟩
  | stop media =>
    refine ⟨fun e => boundTo t.heap media.Path e.1, [], _, stop_trace t media,
      deliveries_stopEvents _ t.players, List.Perm.of_eq ?_, ?_, Or.inl rfl⟩
    · simp only [step, List.append_nil]
      exact stop_players t media
    · intro e _ hr
      simpa [boundTo, mayDeliver] using hr
  | stopAll =>
    refine ⟨fun _ => true, [], _, stopAll_trace t,
      deliveries_stopEvents _ t.players, List.Perm.of_eq ?_, ?_, Or.inl rfl⟩
    · simp only [step, stopAll_players]
      simp
    · intro e _ _
      trivial
  | pause media =>
    obtain ⟨_, a2, a3⟩ := pause_spec t media
    refine ⟨fun _ => false, [], _, a3, ?_, List.Perm.of_eq ?_, ?_, Or.inl rfl⟩
    · rw [deliveries_callEvents _ _ (by intro a c h; cases h)]
      simp
    · simp only [step, a2]
      simp
    · intro e _ hr
      cases hr
  | resume media =>
    obtain ⟨_, a2, a3⟩ := resume_spec t media
    refine ⟨fun _ => false, [], _, a3, ?_, List.Perm.of_eq ?_, ?_, Or.inl rfl⟩
    · rw [deliveries_callEvents _ _ (by intro a c h; cases h)]
      simp
    · simp only [step, a2]
      simp
    · intro e _ hr
      cases hr
  | playContinue env media wait =>
    cases hf : (t.players.map Prod.fst).any (boundTo t.heap media.Path)
    · obtain ⟨added, evs, b1, b2, b3, b4⟩ := hplay env media wait ActionLoopPlay
      refine ⟨fun _ => false, added, evs, ?_, b2, List.Perm.of_eq ?_, ?_, b4⟩
      · simp only [step]
        rw [playContinue_missing_spec env t media wait hf]; exact b1
      · simp only [step]
        rw [playContinue_missing_spec env t media wait hf]; exact b3
      · intro e _ hr
        cases hr
    · obtain ⟨_, _, a3, a4⟩ := playContinue_hit_spec env t media wait hf
      refine ⟨fun _ => false, [], [], ?_, ?_, List.Perm.of_eq ?_, ?_, Or.inl rfl⟩
      · simp only [step, a4, List.append_nil]
      · simp [deliveries]
      · simp only [step, a3]
        simp
      · intro e _ hr
        cases hr
  | play env media wait action =>
    obtain ⟨added, evs, b1, b2, b3, b4⟩ := hplay env media wait action
    refine ⟨fun _ => false, added, evs, b1, b2, List.Perm.of_eq b3, ?_, b4⟩
    intro e _ hr
    cases hr

theorem split_disjoint (R : Nat × Option Nat → Bool) (l : List (Nat × Option Nat))
    (h : (l.filterMap Prod.snd).Nodup) :
    ((l.filter R).filterMap Prod.snd).Nodup ∧
    ((l.filter (fun e => !R e)).filterMap Prod.snd).Nodup ∧
    ∀ c, c ∈ (l.filter R).filterMap Prod.snd →
      c ∉ (l.filter (fun e => !R e)).filterMap Prod.snd := by
  have hp : ((l.filter R).filterMap Prod.snd ++
      (l.filter (fun e => !R e)).filterMap Prod.snd).Nodup := by
    rw [← List.filterMap_append]
    exact ((List.filter_append_perm R l).filterMap Prod.snd).nodup_iff.2 h
  rw [List.nodup_append] at hp
  exact ⟨hp.1, hp.2.1, fun c h1 h2 => hp.2.2 h1 h2⟩

theorem deliveries_drop_subset (n : Nat) (tr : List Event) (c : Nat)
    (h : c ∈ deliveries (tr.drop n)) : c ∈ deliveries tr :=
  ((List.drop_sublist n tr).filterMap _).subset h

theorem step_owned (n : Nat) (op : Op) (t : soundMgr) (h : Owned n t) :
    Owned n (step op t) := by
  obtain ⟨hn, hs, hd, hsd⟩ := h
  obtain ⟨R, added, evs, e1, e2, e3, _, e5⟩ := step_summary op t
  obtain ⟨k1, k2, k3⟩ := split_disjoint R t.players hs
  have hdrop : (step op t).trace.drop n = t.trace.drop n ++ evs := by
    rw [e1, List.drop_append_of_le_length hn]
  have hsub1 : ∀ c, c ∈ (t.players.filter R).filterMap Prod.snd → c ∈ signals t :=
    fun c hc => ((List.filter_sublist t.players).filterMap _).subset hc
  have hsub2 : ∀ c, c ∈ (t.players.filter (fun e => !R e)).filterMap Prod.snd →
      c ∈ signals t :=
    fun c hc => ((List.filter_sublist t.players).filterMap _).subset hc
  have hfresh1 : freshChan t ∉ signals t :=
    fun hc => freshChan_not_held t _ (Or.inl hc) rfl
  have hfresh2 : freshChan t ∉ deliveries (t.trace.drop n) :=
    fun hc => freshChan_not_held t _ (Or.inr (deliveries_drop_subset n _ _ hc)) rfl
  have hadd : added.filterMap Prod.snd = [] ∨ added.filterMap Prod.snd = [freshChan t] := by
    rcases e5 with e5 | ⟨k, d, e5, hd2⟩
    · left; rw [e5]; rfl
    · rcases hd2 with hd2 | hd2
      · left; rw [e5, hd2]; rfl
      · right; rw [e5, hd2]; rfl
  have hsig : (signals (step op t)).Perm
      ((t.players.filter (fun e => !R e)).filterMap Prod.snd ++
        added.filterMap Prod.snd) := by
    rw [← List.filterMap_append]
    exact e3.filterMap Prod.snd
  refine ⟨?_, ?_, ?_, ?_⟩
  · rw [e1, List.length_append]; omega
  · rw [hsig.nodup_iff, List.nodup_append]
    refine ⟨k2, ?_, ?_⟩
    · rcases hadd with hadd | hadd <;> rw [hadd] <;> simp
    · intro c hc1 hc2
      rcases hadd with hadd | hadd <;> rw [hadd] at hc2
      · simp at hc2
      · simp only [List.mem_singleton] at hc2
        subst hc2
        exact hfresh1 (hsub2 _ hc1)
  · rw [hdrop, deliveries_append, e2, List.nodup_append]
    exact ⟨hd, k1, fun c hc1 hc2 => hsd c (hsub1 c hc2) hc1⟩
  · intro c hc
    rw [hdrop, deliveries_append, e2]
    rw [hsig.mem_iff] at hc
    intro hmem
    rcases List.mem_append.1 hc with hc | hc
    · rcases List.mem_append.1 hmem with hm | hm
      · exact hsd c (hsub2 c hc) hm
      · exact k3 c hm hc
    · rcases hadd with hadd | hadd <;> rw [hadd] at hc
      · simp at hc
      · simp only [List.mem_singleton] at hc
        subst hc
        rcases List.mem_append.1 hmem with hm | hm
        · exact hfresh2 hm
        · exact hfresh1 (hsub1 _ hm)

theorem run_owned (n : Nat) (ops : List Op) (t : soundMgr) (h : Owned n t) :
    Owned n (run ops t) := by
  induction ops generalizing t with
  | nil => exact h
  | cons op ops ih => exact ih (step op t) (step_owned n op t h)

theorem run_append (ops1 ops2 : List Op) (s : soundMgr) :
    run (ops1 ++ ops2) s = run ops2 (run ops1 s) := by
  simp [run, List.foldl_append]

theorem run_trace (ops : List Op) (t : soundMgr) :
    ∃ evs, (run ops t).trace = t.trace ++ evs := by
  induction ops generalizing t with
  | nil => exact ⟨[], by simp [run]⟩
  | cons op ops ih =>
    obtain ⟨evs2, h2⟩ := ih (step op t)
    obtain ⟨_, _, evs1, h1, _⟩ := step_summary op t
    exact ⟨evs1 ++ evs2, by
      show (run ops (step op t)).trace = _
      rw [h2, h1, List.append_assoc]⟩

theorem owned_start (s : soundMgr) (h : (signals s).Nodup) : Owned s.trace.length s := by
  refine ⟨le_refl _, h, ?_, ?_⟩
  · simp [deliveries]
  · intro c _
    simp [deliveries]

theorem delivered_entry (op : Op) (t : soundMgr) (c : Nat)
    (hc : c ∈ deliveries (newEvents t (step op t))) :
    ∃ e ∈ t.players, e.2 = some c ∧ mayDeliver op t e ∧ e ∉ (step op t).players := by
  obtain ⟨R, added, evs, e1, e2, e3, e4, e5⟩ := step_summary op t
  rw [newEvents_append t _ evs e1, e2, List.mem_filterMap] at hc
  obtain ⟨e, he, hec⟩ := hc
  rw [List.mem_filter] at he
  refine ⟨e, he.1, hec, e4 e he.1 he.2, ?_⟩
  rw [e3.mem_iff]
  intro hmem
  rcases List.mem_append.1 hmem with hm | hm
  · rw [List.mem_filter] at hm
    simp [he.2] at hm
  · rcases e5 with e5 | ⟨k, d, e5, hd⟩
    · rw [e5] at hm; simp at hm
    · rw [e5] at hm
      simp only [List.mem_singleton] at hm
      subst hm
      rcases hd with hd | hd
      · rw [hd] at hec; cases hec
      · rw [hd] at hec
        have hcs : c ∈ signals t := List.mem_filterMap.2 ⟨_, he.1, by rw [hd]; exact hec⟩
        have : c = freshChan t := by simpa using hec.symm
        exact freshChan_not_held t c (Or.inl hcs) this

theorem removed_entry (op : Op) (t : soundMgr) (e : Nat × Option Nat) (he : e ∈ t.players)
    (c : Nat) (hec : e.2 = some c) (hrem : e ∉ (step op t).players) :
    c ∈ deliveries (newEvents t (step op t)) := by
  obtain ⟨R, added, evs, e1, e2, e3, _, _⟩ := step_summary op t
  rw [newEvents_append t _ evs e1, e2, List.mem_filterMap]
  refine ⟨e, ?_, hec⟩
  rw [List.mem_filter]
  refine ⟨he, ?_⟩
  by_contra hR
  apply hrem
  rw [e3.mem_iff]
  apply List.mem_append_left
  rw [List.mem_filter]
  exact ⟨he, by simpa using hR⟩

/-- C7: on a map in which no channel is held by two entries, along every
sequential run of calls each channel receives at most one value; a call sends
on a channel only if it is `update`, `stop` or `stopAll` and the channel is
held by an entry that the call selects (for `update`: not paused, not looping,
handle not playing), and that entry is deleted by the same call; and the
channel of every entry that a call deletes receives a value in that call and
exactly one value in the whole run. -/
theorem signal_delivered_once (s : soundMgr) (hs : (signals s).Nodup) (ops : List Op) :
    (∀ c, (deliveries (newEvents s (run ops s))).count c ≤ 1) ∧
    (∀ pre op post, ops = pre ++ op :: post →
      (∀ c ∈ deliveries (newEvents (run pre s) (step op (run pre s))),
        ∃ e ∈ (run pre s).players, e.2 = some c ∧ mayDeliver op (run pre s) e ∧
          e ∉ (step op (run pre s)).players) ∧
      (∀ e ∈ (run pre s).players, ∀ c, e.2 = some c →
        e ∉ (step op (run pre s)).players →
        c ∈ deliveries (newEvents (run pre s) (step op (run pre s))) ∧
        (deliveries (newEvents s (run ops s))).count c = 1)) := by
  have hown : ∀ l, Owned s.trace.length (run l s) := fun l =>
    run_owned _ l s (owned_start s hs)
  have hnd : (deliveries (newEvents s (run ops s))).Nodup := (hown ops).2.2.1
  refine ⟨fun c => List.nodup_iff_count_le_one.1 hnd c, ?_⟩
  intro pre op post hops
  refine ⟨fun c hc => delivered_entry op _ c hc, ?_⟩
  intro e he c hec hrem
  have hin := removed_entry op _ e he c hec hrem
  refine ⟨hin, List.count_eq_one_of_mem hnd ?_⟩
  obtain ⟨E1, h1⟩ := run_trace pre s
  obtain ⟨_, _, evs, h2, _⟩ := step_summary op (run pre s)
  obtain ⟨E2, h3⟩ := run_trace post (step op (run pre s))
  have hfinal : run ops s = run post (step op (run pre s)) := by
    rw [hops, run_append]; rfl
  rw [newEvents_append _ _ evs h2] at hin
  have htr : (run ops s).trace = s.trace ++ (E1 ++ evs ++ E2) := by
    rw [hfinal, h3, h2, h1]; simp
  rw [newEvents_append s _ _ htr, deliveries_append, deliveries_append]
  exact List.mem_append_left _ (List.mem_append_right _ hin)

/-- C7, on the sample registry: pause an effect, let a silent device tick,
then stop everything. -/
theorem signal_delivered_once_witness :
    (signals demo).Nodup ∧
    (deliveries (newEvents demo (run [Op.pause { Path := "jump.wav" },
      Op.range (fun a => 10 - a), Op.update silent, Op.stopAll] demo))).count 0 ≤ 1 ∧
    (deliveries (newEvents demo (run [Op.pause { Path := "jump.wav" },
      Op.range (fun a => 10 - a), Op.update silent, Op.stopAll] demo))).count 1 = 1 :=
  have h := signal_delivered_once demo (by decide)
    [Op.pause { Path := "jump.wav" }, Op.range (fun a => 10 - a), Op.update silent,
      Op.stopAll]
  ⟨by decide, h.1 0,
    ((h.2 [Op.pause { Path := "jump.wav" }, Op.range (fun a => 10 - a), Op.update silent]
      Op.stopAll [] rfl).2 (2, some 1) (by decide) 1 rfl (by decide)).2⟩

end Spx
